import Mathlib

/-!
Verification development for the Autopolish polishing pipeline.

This file gives a shallow embedding, in Lean 4, of the core pipeline of the
repository:

* `PolishingMathematicalModel.calculate_tool_orientation`,
  `PolishingMathematicalModel.optimize_path_sequence` and
  `PolishingMathematicalModel.calculate_surface_curvature`
  (file `Core/Core.py`),
* `AdvancedPathPlanner.generate_paths` with its adaptive and parallel
  strategies (file `Core/Core.py`),
* `PolishingCore.generate_polishing_paths` and
  `PolishingCore._enrich_path_data` (file `Core/Core.py`),
* `RAPIDGenerator.generate` and its helper emitters
  (file `Generators/Generators.py`).

Python floats are modelled by exact rationals; NumPy NaN values (which arise
from division by zero, which in NumPy warns and yields NaN instead of
raising) are modelled by `none` in `Option ℚ`.  Python exceptions that can
actually be raised on the modelled paths (NumPy `ZeroDivisionError` from
`np.arange` with step 0, `ValueError` from reducing an empty array, and
`IndexError` from fancy indexing with an out-of-range index) are modelled
with `Except`.

The standard `Rat` arithmetic in this toolchain is `irreducible`, which
blocks kernel evaluation of concrete inputs, so the embedding uses its own
`mkRat`-based operations `qadd`, `qsub`, `qmul`, `qdiv`, `qlt`, `qle`.
Each is certified against the standard operation right below its
definition (`qadd_eq`, `qsub_eq`, ...), so they denote ordinary rational
arithmetic.
-/

/-- Rational addition, kernel-reducible; certified by `qadd_eq`. -/
def qadd (a b : ℚ) : ℚ := mkRat (a.num * b.den + b.num * a.den) (a.den * b.den)

/-- Rational subtraction, kernel-reducible; certified by `qsub_eq`. -/
def qsub (a b : ℚ) : ℚ := mkRat (a.num * b.den - b.num * a.den) (a.den * b.den)

/-- Rational multiplication, kernel-reducible; certified by `qmul_eq`. -/
def qmul (a b : ℚ) : ℚ := mkRat (a.num * b.num) (a.den * b.den)

/-- Rational inverse, kernel-reducible; certified by `qinv_eq`. -/
def qinv (b : ℚ) : ℚ :=
  if b.num = 0 then 0
  else mkRat (if b.num < 0 then -(b.den : Int) else (b.den : Int)) b.num.natAbs

/-- Rational division, kernel-reducible; certified by `qdiv_eq`. -/
def qdiv (a b : ℚ) : ℚ := qmul a (qinv b)

/-- Strict comparison as a boolean, kernel-reducible; certified by `qlt_iff`. -/
def qlt (a b : ℚ) : Bool := a.num * b.den < b.num * a.den

/-- Non-strict comparison as a boolean, kernel-reducible; certified by `qle_iff`. -/
def qle (a b : ℚ) : Bool := a.num * b.den ≤ b.num * a.den

/-- Absolute value, kernel-reducible; certified by `qabs_eq`. -/
def qabs (a : ℚ) : ℚ := mkRat (a.num.natAbs : Int) a.den

/-- Binary minimum using `qle`; certified by `qmin_eq`. -/
def qmin (a b : ℚ) : ℚ := if qle a b then a else b

/-- Binary maximum using `qle`; certified by `qmax_eq`. -/
def qmax (a b : ℚ) : ℚ := if qle a b then b else a

theorem qadd_eq (a b : ℚ) : qadd a b = a + b := (Rat.add_def' a b).symm

theorem qsub_eq (a b : ℚ) : qsub a b = a - b := (Rat.sub_def' a b).symm

theorem qmul_eq (a b : ℚ) : qmul a b = a * b := by
  rw [qmul, ← Rat.normalize_eq_mkRat (Nat.mul_ne_zero a.den_nz b.den_nz), Rat.mul_def]

theorem qinv_eq (b : ℚ) : qinv b = b⁻¹ := by
  have hinv : b⁻¹ = Rat.divInt (b.den : Int) b.num := Rat.inv_def' b
  rw [qinv]
  rcases lt_trichotomy b.num 0 with h | h | h
  · rw [if_neg (by omega), if_pos h, hinv]
    rw [show Rat.divInt (b.den : Int) b.num
        = Rat.divInt (-(b.den : Int)) (-b.num) from (Rat.neg_divInt_neg _ _).symm]
    conv_rhs => rw [show (-b.num) = ((b.num.natAbs : Nat) : Int) by omega]
    rw [Rat.divInt_ofNat]
  · rw [if_pos h, hinv, h, Rat.divInt_zero]
  · rw [if_neg (by omega), if_neg (by omega), hinv]
    conv_rhs => rw [show b.num = ((b.num.natAbs : Nat) : Int) by omega]
    rw [Rat.divInt_ofNat]

theorem qdiv_eq (a b : ℚ) : qdiv a b = a / b := by
  rw [qdiv, qmul_eq, qinv_eq, div_eq_mul_inv]

theorem qlt_iff (a b : ℚ) : qlt a b = true ↔ a < b := by
  rw [qlt, decide_eq_true_iff, Rat.lt_def]

theorem qle_iff (a b : ℚ) : qle a b = true ↔ a ≤ b := by
  rw [qle, decide_eq_true_iff, Rat.le_def]

theorem qabs_eq (a : ℚ) : qabs a = |a| := by
  rw [qabs, Rat.abs_def, Rat.divInt_ofNat]

theorem qmin_eq (a b : ℚ) : qmin a b = min a b := by
  rw [qmin, min_comm, min_def]
  by_cases h : a ≤ b
  · rw [if_pos ((qle_iff a b).mpr h)]
    rcases eq_or_lt_of_le h with rfl | hlt
    · simp
    · rw [if_neg (not_le.mpr hlt)]
  · rw [if_neg (fun hc => h ((qle_iff a b).mp hc)), if_pos (le_of_lt (not_le.mp h))]

theorem qmax_eq (a b : ℚ) : qmax a b = max a b := by
  rw [qmax, max_comm, max_def]
  by_cases h : a ≤ b
  · rw [if_pos ((qle_iff a b).mpr h)]
    rcases eq_or_lt_of_le h with rfl | hlt
    · simp
    · rw [if_neg (not_le.mpr hlt)]
  · rw [if_neg (fun hc => h ((qle_iff a b).mp hc)), if_pos (le_of_lt (not_le.mp h))]

/-- Ceiling of a rational, kernel-reducible; certified by `qceil_eq`.
Uses the identity that the ceiling is the negated floor of the negation. -/
def qceil (q : ℚ) : Int := -((-q.num) / (q.den : Int))

theorem qceil_eq (q : ℚ) : qceil q = ⌈q⌉ := by
  have h1 : ⌈q⌉ = -⌊-q⌋ := by
    rw [← Int.ceil_neg, neg_neg]
  rw [qceil, h1, Rat.floor_def, Rat.num_neg_eq_neg_num, Rat.den_neg_eq_den]

/-!
## Decimal rendering

Models Python string formatting of the numbers that reach the generated
program text: `str(int)` for nonnegative integers (`natStr`), the
`{i:03d}` zero-padded form used in point constant names (`pad3`), and the
fixed-precision float formats `{x:.1f}`, `{x:.3f}`, `{x:.6f}` (`fmtFixed`,
which uses round-half-up where CPython rounds half-to-even; no claim in
this development depends on the rounding rule at ties).
-/

/-- Decimal digits of `n`, most significant first, via a fuel argument so
that the kernel can evaluate it.  `natChars f n` is correct when `n ≤ f`. -/
def natChars : Nat → Nat → List Char
  | 0, _ => []
  | f + 1, n => if n = 0 then [] else natChars f (n / 10) ++ [Nat.digitChar (n % 10)]

/-- Decimal rendering of a natural number, the model of Python `str(n)`. -/
def natStr (n : Nat) : String := if n = 0 then "0" else ⟨natChars n n⟩

/-- Zero-pad the decimal rendering to at least three characters, the model
of the Python format `{n:03d}` for nonnegative `n`. -/
def pad3 (n : Nat) : String :=
  ⟨List.replicate (3 - (natStr n).data.length) '0' ++ (natStr n).data⟩

/-- Round-half-up of a rational to an integer, computed on numerator and
denominator so that the kernel can evaluate it. -/
def qroundInt (q : ℚ) : Int := Int.fdiv (2 * q.num + (q.den : Int)) (2 * (q.den : Int))

/-- Decimal rendering of an integer (model of Python `str` on `int`-valued
floats scaled to integers). -/
def intStr (n : Int) : String :=
  if n < 0 then "-" ++ natStr n.natAbs else natStr n.natAbs

/-- Fixed-precision decimal rendering of a rational: the model of the
Python format `{q:.df}`. -/
def fmtFixed (d : Nat) (q : ℚ) : String :=
  let scaled : Int := qroundInt (qmul q ((10 ^ d : Nat) : ℚ))
  let m : Nat := scaled.natAbs
  let intPart : String := natStr (m / 10 ^ d)
  let fracPart : String :=
    ⟨List.replicate (d - (natStr (m % 10 ^ d)).data.length) '0'
      ++ (natStr (m % 10 ^ d)).data⟩
  (if scaled < 0 then "-" else "") ++ intPart ++ (if d = 0 then "" else "." ++ fracPart)

/-- Decimal value of a digit character. -/
def charVal (c : Char) : Nat := c.toNat - 48

/-- Left fold reading a digit string back into a number, used to certify
that the decimal renderings are injective. -/
def parseAcc (a : Nat) (l : List Char) : Nat :=
  l.foldl (fun x c => x * 10 + charVal c) a

theorem charVal_digitChar (d : Nat) (h : d < 10) : charVal (Nat.digitChar d) = d := by
  interval_cases d <;> rfl

theorem parseAcc_append (a : Nat) (l l' : List Char) :
    parseAcc a (l ++ l') = parseAcc (parseAcc a l) l' := by
  simp [parseAcc, List.foldl_append]

theorem parseAcc_natChars (f : Nat) :
    ∀ n, n ≤ f → ∀ a, parseAcc a (natChars f n) = a * 10 ^ (natChars f n).length + n := by
  induction f with
  | zero =>
    intro n hn a
    interval_cases n
    simp [natChars, parseAcc]
  | succ f ih =>
    intro n hn a
    by_cases h0 : n = 0
    · simp [natChars, h0, parseAcc]
    · rw [natChars, if_neg h0]
      have hdiv : n / 10 ≤ f := by
        have : n / 10 < n := Nat.div_lt_self (Nat.pos_of_ne_zero h0) (by omega)
        omega
      rw [parseAcc_append, ih (n / 10) hdiv a]
      have hlen : (natChars f (n / 10) ++ [Nat.digitChar (n % 10)]).length
          = (natChars f (n / 10)).length + 1 := by simp
      rw [hlen]
      have hmod : n % 10 < 10 := Nat.mod_lt _ (by omega)
      simp only [parseAcc, List.foldl_cons, List.foldl_nil]
      rw [charVal_digitChar _ hmod]
      rw [pow_succ]
      have hm2 : n / 10 * 10 + n % 10 = n := by omega
      have hring : (a * 10 ^ (natChars f (n / 10)).length + n / 10) * 10 + n % 10
          = a * (10 ^ (natChars f (n / 10)).length * 10) + (n / 10 * 10 + n % 10) := by
        ring
      rw [hring, hm2]

theorem parseAcc_natStr (n : Nat) : parseAcc 0 (natStr n).data = n := by
  by_cases h0 : n = 0
  · simp [natStr, h0, parseAcc, charVal]
  · rw [natStr, if_neg h0]
    have := parseAcc_natChars n n le_rfl 0
    simpa using this

theorem natStr_injective : Function.Injective natStr := by
  intro a b h
  have ha := parseAcc_natStr a
  have hb := parseAcc_natStr b
  rw [h] at ha
  omega

theorem parseAcc_replicate_zero (a k : Nat) :
    parseAcc a (List.replicate k '0') = a * 10 ^ k := by
  induction k generalizing a with
  | zero => simp [parseAcc]
  | succ k ih =>
    rw [List.replicate_succ]
    simp only [parseAcc, List.foldl_cons] at ih ⊢
    rw [ih]
    have : charVal '0' = 0 := rfl
    rw [this]
    ring

theorem parseAcc_pad3 (n : Nat) : parseAcc 0 (pad3 n).data = n := by
  show parseAcc 0 (List.replicate (3 - (natStr n).data.length) '0' ++ (natStr n).data) = n
  rw [parseAcc_append, parseAcc_replicate_zero, zero_mul, parseAcc_natStr]

theorem pad3_injective : Function.Injective pad3 := by
  intro a b h
  have ha := parseAcc_pad3 a
  have hb := parseAcc_pad3 b
  rw [h] at ha
  omega

theorem natChars_digits (f : Nat) :
    ∀ n, ∀ c ∈ natChars f n, charVal c < 10 ∧ c ≠ '_' ∧ c ≠ ' ' := by
  induction f with
  | zero => intro n c hc; simp [natChars] at hc
  | succ f ih =>
    intro n c hc
    rw [natChars] at hc
    by_cases h0 : n = 0
    · simp [h0] at hc
    · rw [if_neg h0] at hc
      rcases List.mem_append.mp hc with h | h
      · exact ih _ c h
      · have hm : c = Nat.digitChar (n % 10) := by simpa using h
        have hlt : n % 10 < 10 := Nat.mod_lt _ (by omega)
        subst hm
        refine ⟨by rw [charVal_digitChar _ hlt]; exact hlt, ?_, ?_⟩ <;>
          interval_cases h : n % 10 <;> decide

theorem natStr_chars (n : Nat) :
    ∀ c ∈ (natStr n).data, c ≠ '_' ∧ c ≠ ' ' := by
  intro c hc
  rw [natStr] at hc
  by_cases h0 : n = 0
  · rw [if_pos h0] at hc
    simp only [show ("0" : String).data = ['0'] from rfl, List.mem_singleton] at hc
    subst hc; exact ⟨by decide, by decide⟩
  · rw [if_neg h0] at hc
    exact (natChars_digits n n c hc).2

theorem pad3_chars (n : Nat) :
    ∀ c ∈ (pad3 n).data, c ≠ '_' ∧ c ≠ ' ' := by
  intro c hc
  show c ≠ '_' ∧ c ≠ ' '
  have : c ∈ List.replicate (3 - (natStr n).data.length) '0' ++ (natStr n).data := hc
  rcases List.mem_append.mp this with h | h
  · have : c = '0' := List.eq_of_mem_replicate h
    subst this; exact ⟨by decide, by decide⟩
  · exact natStr_chars n c h

/-!
## String helper lemmas

The generated program is modelled as a list of text lines.  These lemmas
let line classification predicates (such as: starts with the keyword
`PROC`) be computed on lines that contain arbitrary data in non-leading
position.
-/

theorem strData_append (a b : String) : (a ++ b).data = a.data ++ b.data := rfl

theorem strData_mk (l : List Char) : (String.mk l).data = l := rfl

theorem isPrefixOf_append_of_le (p a b : List Char) (h : p.length ≤ a.length) :
    p.isPrefixOf (a ++ b) = p.isPrefixOf a := by
  induction p generalizing a with
  | nil => simp [List.isPrefixOf]
  | cons c p ih =>
    cases a with
    | nil => simp at h
    | cons x a =>
      show (c == x && p.isPrefixOf (a ++ b)) = (c == x && p.isPrefixOf a)
      rw [ih a (by simpa using h)]

theorem listEq_false_at {l t : List Char} (k : Nat) (hk : l.get? k ≠ t.get? k) :
    (l == t) = false := by
  rw [beq_eq_false_iff_ne]
  intro h
  exact hk (by rw [h])

theorem strEq_data_false_at (a b t : String) (k : Nat) (c d : Char)
    (hk : k < a.data.length) (ha : a.data.get? k = some c) (ht : t.data.get? k = some d)
    (hcd : c ≠ d) : ((a ++ b).data == t.data) = false := by
  apply listEq_false_at k
  rw [strData_append, List.get?_append hk, ha, ht]
  simp [hcd]

/-!
## The NaN-propagating float scalar

`FF` models a NumPy double that is either a finite value (`some q`) or a
non-finite result (`none`).  NumPy emits a `RuntimeWarning` and produces
`nan`/`inf` on division by zero instead of raising; the model collapses
all non-finite results to `none`, since no claim distinguishes `nan` from
`inf` (on every path relevant to the claims the division-by-zero
numerator is itself `0`, which gives `nan`).  Comparisons with a
non-finite value are `false`, as NumPy comparisons with `nan` are.
-/

abbrev FF := Option ℚ

def addF : FF → FF → FF
  | some a, some b => some (qadd a b)
  | _, _ => none

def subF : FF → FF → FF
  | some a, some b => some (qsub a b)
  | _, _ => none

def mulF : FF → FF → FF
  | some a, some b => some (qmul a b)
  | _, _ => none

def divF : FF → FF → FF
  | some a, some b => if b = 0 then none else some (qdiv a b)
  | _, _ => none

/-- Oracle for the irrational math functions used by the source
(`np.sqrt`, `np.arccos`, `np.cos`, `np.sin`).  Theorems assume only the
concrete values of these functions that the modelled control flow
consumes (such as `sqrt 1 = 1` and `arccos 1 = 0`), all of which hold for
the real functions. -/
structure MathOps where
  sqrt : ℚ → ℚ
  arccos : ℚ → ℚ
  cos : ℚ → ℚ
  sin : ℚ → ℚ

/-- `np.sqrt` on the model scalar: negative inputs give NaN. -/
def sqrtF (ops : MathOps) : FF → FF
  | some a => if qlt a 0 then none else some (ops.sqrt a)
  | none => none

def arccosF (ops : MathOps) : FF → FF
  | some a => some (ops.arccos a)
  | none => none

def cosF (ops : MathOps) : FF → FF
  | some a => some (ops.cos a)
  | none => none

def sinF (ops : MathOps) : FF → FF
  | some a => some (ops.sin a)
  | none => none

/-- `np.clip(x, lo, hi)`: NaN propagates. -/
def clipF (lo hi : ℚ) : FF → FF
  | some a => some (qmin hi (qmax lo a))
  | none => none

/-- A 3-vector of model scalars. -/
abbrev Vec3F := FF × FF × FF

def dotF (a b : Vec3F) : FF :=
  addF (addF (mulF a.1 b.1) (mulF a.2.1 b.2.1)) (mulF a.2.2 b.2.2)

def crossF (a b : Vec3F) : Vec3F :=
  (subF (mulF a.2.1 b.2.2) (mulF a.2.2 b.2.1),
   subF (mulF a.2.2 b.1) (mulF a.1 b.2.2),
   subF (mulF a.1 b.2.1) (mulF a.2.1 b.1))

/-- `np.linalg.norm` of a 3-vector. -/
def normF (ops : MathOps) (v : Vec3F) : FF :=
  sqrtF ops (addF (addF (mulF v.1 v.1) (mulF v.2.1 v.2.1)) (mulF v.2.2 v.2.2))

def smulDivF (v : Vec3F) (s : FF) : Vec3F := (divF v.1 s, divF v.2.1 s, divF v.2.2 s)

/-- One component of `np.allclose` with the NumPy defaults
`rtol = 1e-05`, `atol = 1e-08`; comparisons with NaN are false. -/
def closeF : FF → FF → Bool
  | some a, some b => qle (qabs (qsub a b)) (qadd (mkRat 1 100000000) (qmul (mkRat 1 100000) (qabs b)))
  | _, _ => false

def allcloseF (a b : Vec3F) : Bool :=
  closeF a.1 b.1 && closeF a.2.1 b.2.1 && closeF a.2.2 b.2.2

def negVecF (v : Vec3F) : Vec3F :=
  (subF (some 0) v.1, subF (some 0) v.2.1, subF (some 0) v.2.2)

/-- Shallow embedding of `PolishingMathematicalModel.calculate_tool_orientation`
(`Core/Core.py`, lines 81-103).  The Python source:

    normal = normal / np.linalg.norm(normal)
    up_vector = np.array([0, 0, 1])
    if np.allclose(normal, up_vector) or np.allclose(normal, -up_vector):
        axis = np.array([1, 0, 0])
    else:
        axis = np.cross(up_vector, normal)
        axis = axis / np.linalg.norm(axis)
    angle = np.arccos(np.clip(np.dot(up_vector, normal), -1.0, 1.0))
    qw = np.cos(angle / 2)
    qx = axis[0] * np.sin(angle / 2)
    qy = axis[1] * np.sin(angle / 2)
    qz = axis[2] * np.sin(angle / 2)
    return [qw, qx, qy, qz]

The function contains no `raise` and none of the NumPy calls on this path
raises (division by zero and `arccos` out of domain warn and yield NaN),
so the embedding is total; the `Except` wrapper records that the only
failure channel Python has here is an exception, which never fires. -/
def calculate_tool_orientation (ops : MathOps) (n : ℚ × ℚ × ℚ) :
    Except String (List FF) :=
  let nv : Vec3F := (some n.1, some n.2.1, some n.2.2)
  let normal : Vec3F := smulDivF nv (normF ops nv)
  let up : Vec3F := (some 0, some 0, some 1)
  let axis : Vec3F :=
    if allcloseF normal up || allcloseF normal (negVecF up) then
      (some 1, some 0, some 0)
    else
      smulDivF (crossF up normal) (normF ops (crossF up normal))
  let angle : FF := arccosF ops (clipF (-1) 1 (dotF up normal))
  let half : FF := divF angle (some 2)
  .ok [cosF ops half, mulF axis.1 (sinF ops half),
       mulF axis.2.1 (sinF ops half), mulF axis.2.2 (sinF ops half)]

/-!
## PathSequencer: `PolishingMathematicalModel.optimize_path_sequence`

Shallow embedding of `Core/Core.py`, lines 105-142.  The Python source:

    if len(points) <= 2:
        return points
    points_np = np.array(points)
    current_idx = 0
    visited = [False] * len(points)
    visited[current_idx] = True
    optimized_indices = [0]
    for _ in range(len(points) - 1):
        min_dist = float('inf')
        next_idx = -1
        current_pos = points_np[current_idx]
        for i in range(len(points)):
            if not visited[i]:
                dist = np.linalg.norm(current_pos - points_np[i])
                if dist < min_dist:
                    min_dist = dist
                    next_idx = i
        if next_idx != -1:
            visited[next_idx] = True
            optimized_indices.append(next_idx)
            current_idx = next_idx
    return [points[i] for i in optimized_indices]

The Euclidean norm is replaced by its square (`sqDist`); squaring is
strictly monotone on nonnegative reals, so every comparison
`dist < min_dist`, and hence the selected index sequence, is unchanged.
`float('inf')` is modelled by `none` in `Option ℚ`.
-/

/-- A 3D point (Python list `[x, y, z]` from `tolist()`). -/
abbrev Point3 := ℚ × ℚ × ℚ

/-- Squared Euclidean distance between two points. -/
def sqDist (a b : Point3) : ℚ :=
  qadd (qadd (qmul (qsub a.1 b.1) (qsub a.1 b.1))
             (qmul (qsub a.2.1 b.2.1) (qsub a.2.1 b.2.1)))
       (qmul (qsub a.2.2 b.2.2) (qsub a.2.2 b.2.2))

/-- `d < m` where `m : Option ℚ` models a float that may be infinity. -/
def ltInf (d : ℚ) : Option ℚ → Bool
  | none => true
  | some m => qlt d m

/-- The inner `for i in range(len(points))` loop of the source: running
minimum `minD` (`min_dist`, `none` is infinity) and current argmin `best`
(`next_idx`, `none` is `-1`). -/
def findNextAux (pts : List Point3) (visited : List Bool) (cur : Point3) :
    List Nat → Option ℚ → Option Nat → Option Nat
  | [], _, best => best
  | i :: rest, minD, best =>
    if visited.getD i true = false then
      let d := sqDist cur (pts.getD i (0, 0, 0))
      if ltInf d minD then findNextAux pts visited cur rest (some d) (some i)
      else findNextAux pts visited cur rest minD best
    else findNextAux pts visited cur rest minD best

def findNext (pts : List Point3) (visited : List Bool) (cur : Point3) : Option Nat :=
  findNextAux pts visited cur (List.range pts.length) none none

/-- The outer `for _ in range(len(points) - 1)` loop, returning the list
of indices appended to `optimized_indices` after the initial `0`. -/
def nnLoop (pts : List Point3) : Nat → List Bool → Nat → List Nat
  | 0, _, _ => []
  | f + 1, visited, curIdx =>
    match findNext pts visited (pts.getD curIdx (0, 0, 0)) with
    | some j => j :: nnLoop pts f (visited.set j true) j
    | none => nnLoop pts f visited curIdx

/-- Shallow embedding of `optimize_path_sequence`.  The final Python list
comprehension `[points[i] for i in optimized_indices]` is modelled with
`filterMap get?`; every collected index is in range, so no element is
dropped (this is part of what the permutation theorem proves). -/
def optimize_path_sequence (pts : List Point3) : List Point3 :=
  if pts.length ≤ 2 then pts
  else
    let visited0 := (List.replicate pts.length false).set 0 true
    let idxs := 0 :: nnLoop pts (pts.length - 1) visited0 0
    idxs.filterMap (fun i => pts.get? i)

theorem findNextAux_sound (pts : List Point3) (visited : List Bool) (cur : Point3) :
    ∀ (idxs : List Nat) (minD : Option ℚ) (best : Option Nat) (j : Nat),
      findNextAux pts visited cur idxs minD best = some j →
      best = some j ∨ (j ∈ idxs ∧ visited.getD j true = false) := by
  intro idxs
  induction idxs with
  | nil => intro minD best j h; exact Or.inl h
  | cons i rest ih =>
    intro minD best j h
    rw [findNextAux] at h
    by_cases hv : visited.getD i true = false
    · rw [if_pos hv] at h
      by_cases hd : ltInf (sqDist cur (pts.getD i (0, 0, 0))) minD = true
      · rw [if_pos hd] at h
        rcases ih _ _ _ h with h1 | h1
        · have : i = j := by simpa using h1
          subst this
          exact Or.inr ⟨List.mem_cons_self _ _, hv⟩
        · exact Or.inr ⟨List.mem_cons_of_mem _ h1.1, h1.2⟩
      · rw [if_neg hd] at h
        rcases ih _ _ _ h with h1 | h1
        · exact Or.inl h1
        · exact Or.inr ⟨List.mem_cons_of_mem _ h1.1, h1.2⟩
    · rw [if_neg hv] at h
      rcases ih _ _ _ h with h1 | h1
      · exact Or.inl h1
      · exact Or.inr ⟨List.mem_cons_of_mem _ h1.1, h1.2⟩

theorem findNextAux_none (pts : List Point3) (visited : List Bool) (cur : Point3) :
    ∀ (idxs : List Nat) (minD : Option ℚ) (best : Option Nat),
      (minD ≠ none → best ≠ none) →
      findNextAux pts visited cur idxs minD best = none →
      best = none ∧ ∀ i ∈ idxs, ¬visited.getD i true = false := by
  intro idxs
  induction idxs with
  | nil =>
    intro minD best _ h
    exact ⟨h, by simp⟩
  | cons i rest ih =>
    intro minD best hinv h
    rw [findNextAux] at h
    by_cases hv : visited.getD i true = false
    · rw [if_pos hv] at h
      by_cases hd : ltInf (sqDist cur (pts.getD i (0, 0, 0))) minD = true
      · rw [if_pos hd] at h
        exact absurd (ih _ _ (fun _ => by simp) h).1 (by simp)
      · rw [if_neg hd] at h
        rcases hm : minD with _ | m
        · subst hm
          exact absurd hd (by simp [ltInf])
        · subst hm
          have hb := hinv (by simp)
          exact absurd (ih _ _ (fun _ => hb) h).1 hb
    · rw [if_neg hv] at h
      have h2 := ih _ _ hinv h
      refine ⟨h2.1, ?_⟩
      intro a ha
      rcases List.mem_cons.mp ha with rfl | ha
      · exact fun hc => hv hc
      · exact h2.2 a ha

theorem findNext_mem (pts : List Point3) (visited : List Bool) (cur : Point3) (j : Nat)
    (h : findNext pts visited cur = some j) :
    j ∈ List.range pts.length ∧ visited.getD j true = false := by
  rcases findNextAux_sound pts visited cur _ none none j h with h1 | h1
  · exact absurd h1 (by simp)
  · exact h1

theorem findNext_some (pts : List Point3) (visited : List Bool) (cur : Point3)
    (h : ∃ i ∈ List.range pts.length, visited.getD i true = false) :
    findNext pts visited cur ≠ none := by
  intro hc
  rcases h with ⟨i, hi, hv⟩
  exact (findNextAux_none pts visited cur _ none none (fun hm => absurd rfl hm) hc).2 i hi hv


theorem getD_set_true_ne : ∀ (visited : List Bool) (j i : Nat), i ≠ j →
    (visited.set j true).getD i true = visited.getD i true := by
  intro visited
  induction visited with
  | nil => intro j i _; rfl
  | cons a t ih =>
    intro j i h
    cases j with
    | zero =>
      cases i with
      | zero => exact absurd rfl h
      | succ i => rfl
    | succ j =>
      cases i with
      | zero => rfl
      | succ i => exact ih j i (fun hc => h (by rw [hc]))

theorem getD_set_true_self : ∀ (visited : List Bool) (j : Nat), j < visited.length →
    (visited.set j true).getD j true = true := by
  intro visited
  induction visited with
  | nil => intro j h; simp at h
  | cons a t ih =>
    intro j h
    cases j with
    | zero => rfl
    | succ j => exact ih j (by simpa using h)

/-- Boolean form of `visited[i] = False` (with a `True` default out of
range, which never occurs on in-range indices). -/
def unvis (visited : List Bool) (i : Nat) : Bool := visited.getD i true == false

theorem unvis_true_iff (visited : List Bool) (i : Nat) :
    unvis visited i = true ↔ visited.getD i true = false := by
  simp [unvis]

/-- Marking a previously unvisited in-range index `j` as visited erases
exactly `j` from the filtered unvisited-index list. -/
theorem filter_unvis_set (visited : List Bool) (j : Nat)
    (hj : j < visited.length) (hv : visited.getD j true = false) :
    ∀ (l : List Nat), l.Nodup →
      l.filter (unvis (visited.set j true)) = (l.filter (unvis visited)).erase j := by
  intro l
  induction l with
  | nil => intro _; rfl
  | cons a t ih =>
    intro hnd
    rcases List.nodup_cons.mp hnd with ⟨hna, hnd'⟩
    by_cases haj : a = j
    · subst haj
      rw [List.filter_cons, List.filter_cons]
      rw [show unvis (visited.set a true) a = false by
        rw [unvis, getD_set_true_self visited a hj]; rfl]
      rw [show unvis visited a = true by rw [unvis, hv]; rfl]
      simp only [Bool.false_eq_true, if_false, if_true, List.erase_cons_head]
      apply List.filter_congr
      intro i hi
      have hia : i ≠ a := fun hc => hna (hc ▸ hi)
      show ((visited.set a true).getD i true == false) = (visited.getD i true == false)
      rw [getD_set_true_ne visited a i hia]
    · have heq : unvis (visited.set j true) a = unvis visited a := by
        show ((visited.set j true).getD a true == false) = (visited.getD a true == false)
        rw [getD_set_true_ne visited j a haj]
      rw [List.filter_cons, List.filter_cons, heq]
      by_cases hp : unvis visited a = true
      · rw [hp]
        simp only [if_true]
        rw [List.erase_cons_tail (by simpa using haj)]
        rw [ih hnd']
      · rw [Bool.not_eq_true] at hp
        rw [hp]
        simp only [Bool.false_eq_true, if_false]
        exact ih hnd'

theorem nnLoop_perm (pts : List Point3) :
    ∀ (fuel : Nat) (visited : List Bool) (curIdx : Nat),
      visited.length = pts.length →
      fuel = ((List.range pts.length).filter (unvis visited)).length →
      (nnLoop pts fuel visited curIdx).Perm
        ((List.range pts.length).filter (unvis visited)) := by
  intro fuel
  induction fuel with
  | zero =>
    intro visited curIdx _ hf
    rw [nnLoop]
    rw [List.length_eq_zero.mp hf.symm]
  | succ f ih =>
    intro visited curIdx hlen hf
    have hne : (List.range pts.length).filter (unvis visited) ≠ [] := by
      intro hc; rw [hc] at hf; simp at hf
    have hex : ∃ i ∈ List.range pts.length, visited.getD i true = false := by
      rcases List.exists_mem_of_ne_nil _ hne with ⟨i, hi⟩
      have hm := List.mem_filter.mp hi
      exact ⟨i, hm.1, (unvis_true_iff _ _).mp hm.2⟩
    rcases hj : findNext pts visited (pts.getD curIdx (0, 0, 0)) with _ | j
    · exact absurd hj (findNext_some pts visited _ hex)
    · rw [nnLoop, hj]
      have hmem := findNext_mem pts visited _ j hj
      have hjlen : j < visited.length := by
        rw [hlen]; exact List.mem_range.mp hmem.1
      have hfil := filter_unvis_set visited j hjlen hmem.2
        (List.range pts.length) (List.nodup_range _)
      have hjf : j ∈ (List.range pts.length).filter (unvis visited) :=
        List.mem_filter.mpr ⟨hmem.1, (unvis_true_iff _ _).mpr hmem.2⟩
      have hlen' : (visited.set j true).length = pts.length := by
        rw [List.length_set, hlen]
      have hf' : f = ((List.range pts.length).filter (unvis (visited.set j true))).length := by
        rw [hfil, List.length_erase_of_mem hjf]
        omega
      have hrec := ih (visited.set j true) j hlen' hf'
      have h1 : (j :: nnLoop pts f (visited.set j true) j).Perm
          (j :: ((List.range pts.length).filter (unvis visited)).erase j) := by
        rw [← hfil]
        exact List.Perm.cons j hrec
      exact h1.trans (List.perm_cons_erase hjf).symm

theorem getD_replicate_false : ∀ (m i : Nat), i < m →
    (List.replicate m false).getD i true = false := by
  intro m
  induction m with
  | zero => intro i h; simp at h
  | succ m ih =>
    intro i h
    cases i with
    | zero => rfl
    | succ i => exact ih i (by omega)

theorem unvis_visited0 (n i : Nat) (hn : 0 < n) (hi : i < n) :
    unvis ((List.replicate n false).set 0 true) i = (i != 0) := by
  cases i with
  | zero =>
    have h0 : ((List.replicate n false).set 0 true).getD 0 true = true :=
      getD_set_true_self _ 0 (by simpa using hn)
    rw [unvis, h0]
    rfl
  | succ i =>
    have h1 : ((List.replicate n false).set 0 true).getD (i + 1) true
        = (List.replicate n false).getD (i + 1) true :=
      getD_set_true_ne _ 0 (i + 1) (by omega)
    rw [unvis, h1, getD_replicate_false n (i + 1) hi]
    rfl

theorem cons_filter_ne_zero_range (n : Nat) :
    0 :: (List.range (n + 1)).filter (fun i => i != 0) = List.range (n + 1) := by
  rw [List.range_succ_eq_map, List.filter_cons]
  simp only [bne_self_eq_false, Bool.false_eq_true, if_false]
  congr 1
  apply List.filter_eq_self.mpr
  intro a ha
  rcases List.mem_map.mp ha with ⟨b, _, rfl⟩
  simp

theorem filterMap_get?_range (l : List Point3) :
    (List.range l.length).filterMap (fun i => l.get? i) = l := by
  induction l with
  | nil => rfl
  | cons a t ih =>
    rw [show (a :: t).length = t.length + 1 from rfl, List.range_succ_eq_map]
    rw [List.filterMap_cons]
    simp only [List.get?_cons_zero]
    rw [List.filterMap_map]
    have hfe : (fun i => (a :: t).get? i) ∘ Nat.succ = fun i => t.get? i := by
      funext i; rfl
    rw [hfe, ih]

/-- The sequencer output is a permutation of its input. -/
theorem optimize_path_sequence_perm_aux (pts : List Point3) :
    (optimize_path_sequence pts).Perm pts := by
  rw [optimize_path_sequence]
  by_cases h : pts.length ≤ 2
  · rw [if_pos h]
  · rw [if_neg h]
    have hn : 0 < pts.length := by omega
    have hlen0 : ((List.replicate pts.length false).set 0 true).length = pts.length := by
      simp
    have hcongr : (List.range pts.length).filter
          (unvis ((List.replicate pts.length false).set 0 true))
        = (List.range pts.length).filter (fun i => i != 0) := by
      apply List.filter_congr
      intro i hi
      exact unvis_visited0 pts.length i hn (List.mem_range.mp hi)
    obtain ⟨m, hm⟩ : ∃ m, pts.length = m + 1 := ⟨pts.length - 1, by omega⟩
    have hperm0 : 0 :: (List.range pts.length).filter (fun i => i != 0)
        = List.range pts.length := by
      rw [hm]; exact cons_filter_ne_zero_range m
    have hflen : pts.length - 1
        = ((List.range pts.length).filter
            (unvis ((List.replicate pts.length false).set 0 true))).length := by
      rw [hcongr]
      have := congrArg List.length hperm0
      simp only [List.length_cons, List.length_range] at this
      omega
    have hloop := nnLoop_perm pts (pts.length - 1)
      ((List.replicate pts.length false).set 0 true) 0 hlen0 hflen
    have hidx : (0 :: nnLoop pts (pts.length - 1)
          ((List.replicate pts.length false).set 0 true) 0).Perm
        (List.range pts.length) := by
      have h1 : (0 :: nnLoop pts (pts.length - 1)
            ((List.replicate pts.length false).set 0 true) 0).Perm
          (0 :: (List.range pts.length).filter
            (unvis ((List.replicate pts.length false).set 0 true))) :=
        List.Perm.cons 0 hloop
      rw [hcongr, hperm0] at h1
      exact h1
    have := List.Perm.filterMap (fun i => pts.get? i) hidx
    rw [filterMap_get?_range pts] at this
    exact this

/-!
## PathPlanner: `AdvancedPathPlanner` (`Core/Core.py`, lines 215-297)

Python exceptions reachable on these paths are modelled with `Except`:
`np.arange` raises `ZeroDivisionError` on step 0; `np.min`/`np.max` of an
empty array raise `ValueError`; fancy indexing with the out-of-range
index that `cKDTree.query` uses for missing neighbors raises
`IndexError`; and `PolishingCore.generate_polishing_paths` itself raises
`ValueError("No model loaded")`.
-/

inductive NpError where
  | zeroDivision
  | emptyReduce
  | indexError
  | noModelLoaded
deriving DecidableEq

structure Mesh where
  vertices : List Point3
deriving DecidableEq

/-!
## MeshAnalyzer: `PolishingMathematicalModel.calculate_surface_curvature`
(`Core/Core.py`, lines 28-63)

The Python source builds a `cKDTree` over the vertices and, per vertex:

    distances, indices = tree.query(point, k=k_neighbors + 1)
    neighbors = vertices[indices[1:]]
    if len(neighbors) >= 3:
        centered = neighbors - neighbors.mean(axis=0)
        cov_matrix = centered.T @ centered
        eigenvalues, _ = np.linalg.eigh(cov_matrix)
        eigenvalues = eigenvalues[np.argsort(eigenvalues)]
        if eigenvalues[2] > 0:
            curvatures.append(eigenvalues[0] / eigenvalues[2])
        else:
            curvatures.append(0)
    else:
        curvatures.append(0)

Per the scipy documentation of `cKDTree.query`, when `k` exceeds the
number of points in the tree the missing neighbors are reported with
infinite distance and with **index equal to n** (one past the last valid
index); NumPy fancy indexing `vertices[indices[1:]]` then raises
`IndexError`.  The query order is by distance; the tie-break among equal
distances is unspecified in scipy and modelled here as ascending index
(no claim depends on it).  The eigenvalue computation is embedded with
the Mathlib spectrum of the real symmetric covariance matrix; it is the
one part of the model that is not kernel-evaluable, which is fine since
no claim evaluates it.
-/

/-- Stable insertion by squared distance to `p` (indices at equal
distance stay in ascending order). -/
def insertByDist (pts : List Point3) (p : Point3) (i : Nat) : List Nat → List Nat
  | [] => [i]
  | j :: t =>
    if qlt (sqDist (pts.getD i (0, 0, 0)) p) (sqDist (pts.getD j (0, 0, 0)) p)
    then i :: j :: t
    else j :: insertByDist pts p i t

def sortIdxByDist (pts : List Point3) (p : Point3) : List Nat → List Nat
  | [] => []
  | i :: t => insertByDist pts p i (sortIdxByDist pts p t)

/-- `cKDTree.query(p, k=m)`: the indices of the `m` nearest vertices;
missing neighbors (when `m` exceeds the vertex count) are padded with
the out-of-range index `n`, as scipy documents. -/
def kdQueryIdx (pts : List Point3) (p : Point3) (m : Nat) : List Nat :=
  let sorted := sortIdxByDist pts p (List.range pts.length)
  if m ≤ pts.length then sorted.take m
  else sorted ++ List.replicate (m - pts.length) pts.length

/-- NumPy fancy indexing `vertices[indices]`: any out-of-range index
raises `IndexError`. -/
def fancyIndex (pts : List Point3) (idxs : List Nat) : Except NpError (List Point3) :=
  match idxs.mapM (fun i => pts.get? i) with
  | some l => .ok l
  | none => .error .indexError

/-- Coordinate projection of a point. -/
def coord : Fin 3 → Point3 → ℚ
  | 0, v => v.1
  | 1, v => v.2.1
  | 2, v => v.2.2

/-- `neighbors.mean(axis=0)`, one coordinate. -/
def meanCoord (ns : List Point3) (j : Fin 3) : ℚ :=
  (ns.map (coord j)).sum / (ns.length : ℚ)

/-- The covariance matrix `centered.T @ centered` over the rationals. -/
def covQ (ns : List Point3) : Matrix (Fin 3) (Fin 3) ℚ :=
  Matrix.of fun i j =>
    (ns.map (fun v => (coord i v - meanCoord ns i) * (coord j v - meanCoord ns j))).sum

/-- The covariance matrix as a real matrix, for the spectral theory. -/
noncomputable def covR (ns : List Point3) : Matrix (Fin 3) (Fin 3) ℝ :=
  (covQ ns).map (fun q => (q : ℝ))

theorem covQ_symm (ns : List Point3) (i j : Fin 3) : covQ ns i j = covQ ns j i := by
  show (ns.map fun v => (coord i v - meanCoord ns i) * (coord j v - meanCoord ns j)).sum
      = (ns.map fun v => (coord j v - meanCoord ns j) * (coord i v - meanCoord ns i)).sum
  congr 1
  apply List.map_congr_left
  intro v _
  ring

theorem covR_isHermitian (ns : List Point3) : (covR ns).IsHermitian := by
  show (covR ns).conjTranspose = covR ns
  ext i j
  rw [Matrix.conjTranspose_apply]
  show star ((covR ns) j i) = (covR ns) i j
  rw [star_trivial]
  show ((covQ ns j i : ℚ) : ℝ) = ((covQ ns i j : ℚ) : ℝ)
  rw [covQ_symm]

/-- The curvature estimate computed for one vertex with at least three
neighbors: the ratio of the smallest to the largest eigenvalue of the
covariance matrix (the source sorts the `eigh` output ascending and takes
entries 0 and 2), or 0 when the largest eigenvalue is not positive. -/
noncomputable def pcaCurvature (ns : List Point3) : ℝ :=
  let ev := (covR_isHermitian ns).eigenvalues
  let lo := min (ev 0) (min (ev 1) (ev 2))
  let hi := max (ev 0) (max (ev 1) (ev 2))
  if 0 < hi then lo / hi else 0

/-- Shallow embedding of `calculate_surface_curvature`.  A `none` mesh
returns the empty field (the source also returns `np.array([])` when
trimesh is unavailable). -/
noncomputable def calculate_surface_curvature (mesh : Option Mesh) (k_neighbors : Nat) :
    Except NpError (List ℝ) :=
  match mesh with
  | none => .ok []
  | some m =>
    m.vertices.mapM (fun p => do
      let idxs := (kdQueryIdx m.vertices p (k_neighbors + 1)).drop 1
      let neighbors ← fancyIndex m.vertices idxs
      if neighbors.length ≥ 3 then pure (pcaCurvature neighbors) else pure 0)

/-- `np.arange(start, stop, step)`: per the NumPy documentation the result
has `max(0, ceil((stop - start) / step))` elements `start + i * step`,
and step 0 raises `ZeroDivisionError`. -/
def arangeQ (start stop step : ℚ) : Except NpError (List ℚ) :=
  if step = 0 then .error .zeroDivision
  else
    .ok ((List.range (qceil (qdiv (qsub stop start) step)).toNat).map
      (fun i => qadd start (qmul (mkRat (i : Int) 1) step)))

/-- `np.min` over a list; `none` models the `ValueError` on an empty array. -/
def vminQ (l : List ℚ) : Option ℚ :=
  match l with
  | [] => none
  | a :: t => some (t.foldl qmin a)

/-- `np.max` over a list; `none` models the `ValueError` on an empty array. -/
def vmaxQ (l : List ℚ) : Option ℚ :=
  match l with
  | [] => none
  | a :: t => some (t.foldl qmax a)

/-- A raw path segment as produced by the planner: the dictionaries
`{'type': 'adaptive_layer', 'z_level': z, 'points': pts}` and
`{'points': pts, 'type': 'parallel_x'}` (the latter has no z level). -/
structure RawSegment where
  ptype : String
  z_level : Option ℚ
  points : List Point3
deriving DecidableEq

/-- Stable insertion into a list sorted by the x coordinate. -/
def insertByX (p : Point3) : List Point3 → List Point3
  | [] => [p]
  | q :: t => if qle p.1 q.1 then p :: q :: t else q :: insertByX p t

/-- Sort points by x coordinate: the model of
`points_strip[points_strip[:, 0].argsort()]`.  NumPy argsort uses an
unstable quicksort, so the order of points with equal x is unspecified
there; the model fixes the stable order.  No claim depends on the order
within a tie. -/
def sortByX : List Point3 → List Point3
  | [] => []
  | p :: t => insertByX p (sortByX t)

/-- Shallow embedding of `AdvancedPathPlanner._generate_adaptive_path`
(`Core/Core.py`, lines 240-271).  The Python source:

    min_z, max_z = np.min(self.vertices[:, 2]), np.max(self.vertices[:, 2])
    step_size = self.tool_radius * stepover_ratio
    paths = []
    curvatures = PolishingMathematicalModel.calculate_surface_curvature(self.mesh)
    for z in np.arange(min_z, max_z, step_size):
        mask = (self.vertices[:, 2] >= z) & (self.vertices[:, 2] < z + step_size)
        if not np.any(mask):
            continue
        layer_points = self.vertices[mask]
        optimized_points = PolishingMathematicalModel.optimize_path_sequence(layer_points.tolist())
        paths.append({'type': 'adaptive_layer', 'z_level': float(z), 'points': optimized_points})
    return paths

The value bound by `curvatures = ...` is never read afterwards (the loop
only uses the vertex mask), but the call itself can raise: with the
default `k_neighbors=10` it raises `IndexError` for every mesh with 1 to
10 vertices (see `calculate_surface_curvature` above), and that exception
escapes `_generate_adaptive_path`.  The embedding therefore sequences the
call, propagating its error, and discards its value; the `np.min`/`np.max`
calls precede it and `np.arange` follows it, as in the source. -/
noncomputable def _generate_adaptive_path (m : Mesh) (toolRadius stepover_ratio : ℚ) :
    Except NpError (List RawSegment) :=
  let zs := m.vertices.map (fun v => v.2.2)
  match vminQ zs, vmaxQ zs with
  | some minZ, some maxZ =>
    let step := qmul toolRadius stepover_ratio
    (calculate_surface_curvature (some m) 10).bind (fun _ =>
      (arangeQ minZ maxZ step).map (fun levels =>
        levels.filterMap (fun z =>
          let layer := m.vertices.filter
            (fun v => qle z v.2.2 && qlt v.2.2 (qadd z step))
          if layer.isEmpty then none
          else some { ptype := "adaptive_layer", z_level := some z,
                      points := optimize_path_sequence layer })))
  | _, _ => .error .emptyReduce

/-- Shallow embedding of `AdvancedPathPlanner._generate_parallel_path`
(`Core/Core.py`, lines 273-297).  The Python source:

    min_coords = np.min(self.vertices, axis=0)
    max_coords = np.max(self.vertices, axis=0)
    paths = []
    if angle == 0:  # X direction scan
        for y in np.arange(min_coords[1], max_coords[1], spacing):
            line_points = []
            mask = np.abs(self.vertices[:, 1] - y) < (spacing / 2.0)
            if np.any(mask):
                points_strip = self.vertices[mask]
                points_strip = points_strip[points_strip[:, 0].argsort()]
                line_points = points_strip.tolist()
            if line_points:
                paths.append({'points': line_points, 'type': 'parallel_x'})
    # (comment in the source: the Y direction analogously...)
    return paths

Only the `angle == 0` branch is implemented in the source; every other
angle falls through to `return paths` with `paths = []`. -/
def _generate_parallel_path (m : Mesh) (angle spacing : ℚ) :
    Except NpError (List RawSegment) :=
  match vminQ (m.vertices.map (fun v => v.2.1)), vmaxQ (m.vertices.map (fun v => v.2.1)) with
  | some minY, some maxY =>
    if angle = 0 then
      (arangeQ minY maxY spacing).map (fun ys =>
        ys.filterMap (fun y =>
          let strip := m.vertices.filter
            (fun v => qlt (qabs (qsub v.2.1 y)) (qdiv spacing 2))
          if strip.isEmpty then none
          else some { ptype := "parallel_x", z_level := none,
                      points := sortByX strip }))
    else .ok []
  | _, _ => .error .emptyReduce

/-- The keyword arguments of `AdvancedPathPlanner.generate_paths`;
`none` models an absent keyword, so that `kwargs.get(key, default)` is
`getD`. -/
structure KWArgs where
  stepover : Option ℚ
  angle : Option ℚ
  spacing : Option ℚ
deriving DecidableEq

/-- Shallow embedding of `AdvancedPathPlanner.generate_paths`
(`Core/Core.py`, lines 225-238).  The Python source:

    if self.mesh is None:
        return []
    if strategy == "adaptive":
        stepover = kwargs.get('stepover', 0.5)
        return self._generate_adaptive_path(stepover)
    elif strategy == "parallel":
        angle = kwargs.get('angle', 0)
        spacing = kwargs.get('spacing', self.tool_radius * 0.7)
        return self._generate_parallel_path(angle, spacing)
    else:
        return []

Any strategy other than the two recognized ones returns the empty list;
no `InvalidParameter` (or any other) exception exists on this path. -/
noncomputable def generate_paths (mesh : Option Mesh) (toolRadius : ℚ) (strategy : String)
    (kw : KWArgs) : Except NpError (List RawSegment) :=
  match mesh with
  | none => .ok []
  | some m =>
    if strategy = "adaptive" then
      _generate_adaptive_path m toolRadius (kw.stepover.getD (mkRat 1 2))
    else if strategy = "parallel" then
      _generate_parallel_path m (kw.angle.getD 0) (kw.spacing.getD (qmul toolRadius (mkRat 7 10)))
    else .ok []

/-!
## PolishingCore: enrichment and the two-stage plan
-/

/-- An enriched path point: the dictionary
`{'pos': pt, 'orient': orientation, 'speed': speed}`. -/
structure PathPoint where
  pos : Point3
  orient : List FF
  speed : Nat
deriving DecidableEq

/-- An enriched segment: the dictionary
`{'id': idx, 'name': f"{stage}_{idx}", 'points': enriched_points}`. -/
structure Segment where
  id : Nat
  name : String
  points : List PathPoint
deriving DecidableEq

/-- The configuration dictionary consumed by
`PolishingCore.generate_polishing_paths` and `_enrich_path_data`;
`none` models an absent key, so `config.get(key, default)` is `getD`.
Speeds are integers in the configuration (defaults 300/200/200). -/
structure CoreConfig where
  tool_diameter : Option ℚ
  path_type : Option String
  stepover : Option ℚ
  rough_speed : Option Nat
  fine_speed : Option Nat
deriving DecidableEq

/-- `config.get(f'{stage}_speed', 200)`: the dictionary key is built from
the stage name, so only the stages `rough` and `fine` can hit the two
configured speeds. -/
def cfgSpeed (cfg : CoreConfig) (stage : String) : Nat :=
  if stage = "rough" then cfg.rough_speed.getD 200
  else if stage = "fine" then cfg.fine_speed.getD 200
  else 200

/-- The quaternion list produced by `calculate_tool_orientation`; the
`Except` error branch of the embedding is unreachable (the source cannot
raise there), so the fallback `[]` is never used. -/
def orientationList (ops : MathOps) (n : ℚ × ℚ × ℚ) : List FF :=
  match calculate_tool_orientation ops n with
  | .ok q => q
  | .error _ => []

/-- Shallow embedding of `PolishingCore._enrich_path_data`
(`Core/Core.py`, lines 388-418).  The Python source:

    enriched_paths = []
    speed = config.get(f'{stage}_speed', 200)
    for idx, path_segment in enumerate(raw_paths):
        points = path_segment['points']
        enriched_points = []
        for pt in points:
            normal = [0, 0, 1]
            orientation = PolishingMathematicalModel.calculate_tool_orientation(normal)
            enriched_points.append({'pos': pt, 'orient': orientation, 'speed': speed})
        if enriched_points:
            enriched_paths.append({'id': idx, 'name': f"{stage}_{idx}", 'points': enriched_points})
    return enriched_paths

The normal passed to the pose computation is always the fixed up vector
`[0, 0, 1]`. -/
def _enrich_path_data (ops : MathOps) (raw : List RawSegment) (stage : String)
    (cfg : CoreConfig) : List Segment :=
  raw.enum.filterMap (fun p =>
    let enrichedPoints := p.2.points.map (fun pt =>
      { pos := pt, orient := orientationList ops (0, 0, 1),
        speed := cfgSpeed cfg stage : PathPoint })
    if enrichedPoints.isEmpty then none
    else some { id := p.1, name := stage ++ "_" ++ natStr p.1, points := enrichedPoints })

/-- Shallow embedding of `PolishingCore.generate_polishing_paths`
(`Core/Core.py`, lines 356-386).  The Python source:

    if self.current_mesh is None:
        raise ValueError("No model loaded")
    planner = AdvancedPathPlanner(self.current_mesh, config.get('tool_diameter', 8.0))
    rough_paths = planner.generate_paths(
        config.get('path_type', 'adaptive'), stepover=config.get('stepover', 0.5))
    fine_paths = planner.generate_paths(
        'parallel', angle=90, spacing=config.get('tool_diameter', 8.0) * 0.3)
    self.generated_paths = {
        'rough': self._enrich_path_data(rough_paths, 'rough', config),
        'fine': self._enrich_path_data(fine_paths, 'fine', config)}
    return self.generated_paths

`AdvancedPathPlanner.__init__` sets `tool_radius = tool_diameter / 2.0`. -/
noncomputable def generate_polishing_paths (ops : MathOps) (mesh : Option Mesh) (cfg : CoreConfig) :
    Except NpError (List (String × List Segment)) :=
  match mesh with
  | none => .error .noModelLoaded
  | some m => do
    let toolRadius := qdiv (cfg.tool_diameter.getD 8) 2
    let rough ← generate_paths (some m) toolRadius (cfg.path_type.getD "adaptive")
      ⟨some (cfg.stepover.getD (mkRat 1 2)), none, none⟩
    let fine ← generate_paths (some m) toolRadius "parallel"
      ⟨none, some 90, some (qmul (cfg.tool_diameter.getD 8) (mkRat 3 10))⟩
    .ok [("rough", _enrich_path_data ops rough "rough" cfg),
         ("fine", _enrich_path_data ops fine "fine" cfg)]

/-!
## RAPIDCodeGenerator: `RAPIDGenerator` (`Generators/Generators.py`)

`RAPIDGenerator.generate` fills `self.code_buffer` with text chunks (each
possibly containing embedded newlines) and returns `"\n".join(buffer)`.
Joining chunks with newlines equals joining the concatenation of each
chunk's lines, so the embedding produces the list of text lines directly
(each multi-line template written as its constituent lines, copied from
`RAPIDTemplates`) and joins them at the end.  The `datetime.now()`
timestamp that `_add_header` interpolates is an explicit `timestamp`
argument of the embedding: it is ambient clock state in the source, not
part of the plan or the context dictionary.
-/

/-- The parameter dictionary `context['params']` as read by the
generator; `none` models an absent key (`params.get(key, default)` is
`getD`).  `enable_force_control` models the truthiness test
`params.get('enable_force_control')`. -/
structure GenParams where
  tool_length : Option ℚ
  rough_speed : Option Nat
  fine_speed : Option Nat
  enable_force_control : Bool
  robot_model : Option String
  target_force : Option ℚ
deriving DecidableEq

/-- `context['paths']`: insertion-ordered dictionary from stage name to
enriched segments, modelled as an association list (Python dict keys are
unique; lookup is first-match). -/
abbrev PathsDict := List (String × List Segment)

/-- The `context` dictionary passed to `RAPIDGenerator.generate`
(`'metadata'` is never read by the generator and is omitted). -/
structure GenContext where
  program_name : Option String
  params : GenParams
  paths : PathsDict
deriving DecidableEq

def lookupSegs (paths : PathsDict) (s : String) : Option (List Segment) :=
  List.lookup s paths

/-- Python `str()` of a float parameter interpolated without a format
specification (the `{force}` field).  Rendered with one fixed decimal;
this abstracts the shortest-roundtrip float repr, and no claim depends on
these digits. -/
def pyFloatStr (q : ℚ) : String := fmtFixed 1 q

/-- `{q:.6f}` applied to an orientation component; NumPy NaN prints as
`nan` under this format. -/
def fmt6F : FF → String
  | none => "nan"
  | some q => fmtFixed 6 q

/-- The 56-equals-sign separator line of `RAPIDTemplates.MODULE_HEADER`
(`"! "` followed by 56 `=` characters). -/
def sepLine : String := "! " ++ String.mk (List.replicate 56 (Char.ofNat 61))

/-- `RAPIDGenerator._add_header` (lines of `RAPIDTemplates.MODULE_HEADER`
after interpolation). -/
def headerLines (ctx : GenContext) (timestamp : String) : List String :=
  ["MODULE " ++ ctx.program_name.getD "Polishing_Module",
   sepLine,
   "! 生成时间: " ++ timestamp,
   "! 生成器: ABB Polishing Studio v2.0",
   "! 机器人: " ++ ctx.params.robot_model.getD "IRB 2600",
   sepLine]

/-- Lines of `RAPIDTemplates.TOOL_DATA` after interpolation with
`tool_name="tPolishingTool"`, `tool_length=params.get('tool_length', 200.0)`,
`tool_mass=0.5`, `cg_z=tool_length/2`. -/
def toolDataLines (params : GenParams) : List String :=
  ["",
   "! 工具数据定义",
   "CONST tooldata tPolishingTool := [",
   "    TRUE,",
   "    [[0, 0, " ++ (fmtFixed 1 (params.tool_length.getD 200) ++ "], [1, 0, 0, 0]],"),
   "    [0.500, [0, 0, " ++ (fmtFixed 1 (qdiv (params.tool_length.getD 200) 2)
     ++ "], [1, 0, 0, 0], 0.001, 0.001, 0.001]"),
   "];"]

/-- Lines of `RAPIDTemplates.WOBJ_DATA` with the constant arguments
`wobj_name="wWorkpiece", x=0, y=0, z=0, q1=1, q2=0, q3=0, q4=0`. -/
def wobjLines : List String :=
  ["",
   "! 工件坐标系定义",
   "CONST wobjdata wWorkpiece := [",
   "    FALSE, TRUE, \"\", [[0, 0, 0], [1, 0, 0, 0]],",
   "    [[0.0, 0.0, 0.0], [1.0000, 0.0000, 0.0000, 0.0000]]",
   "];"]

/-- Lines of `RAPIDTemplates.STANDARD_SPEEDS`. -/
def speedsLines : List String :=
  ["",
   "! 标准速度定义",
   "CONST speeddata vApproach := [100, 500, 5000, 1000];",
   "CONST speeddata vRetract := [150, 500, 5000, 1000];",
   "CONST speeddata vFast := [500, 1000, 5000, 1000];"]

/-- Lines of `RAPIDTemplates.STANDARD_ZONES`. -/
def zonesLines : List String :=
  ["",
   "! 标准区域定义",
   "CONST zonedata zFine := [FALSE, 0.3, 0.3, 0.3, 0.03, 0.3, 0.3];",
   "CONST zonedata zMedium := [FALSE, 1.0, 1.0, 1.0, 0.1, 1.0, 1.0];",
   "CONST zonedata zLarge := [FALSE, 5.0, 5.0, 5.0, 0.3, 5.0, 5.0];"]

/-- Lines of `RAPIDTemplates.IO_SIGNALS`. -/
def ioLines : List String :=
  ["",
   "! IO 信号声明",
   "VAR signaldo doSpindleStart;",
   "VAR signaldo doCoolantOn;",
   "VAR signaldi diEmergencyStop;",
   "VAR signaldi diToolInPlace;"]

/-- `RAPIDGenerator._add_data_declarations` (lines 141-168): tool, work
object, standard speeds, the two dynamically generated process speeds
(interpolated with Python `str` of the integer speed values), zones, IO. -/
def dataDeclLines (params : GenParams) : List String :=
  toolDataLines params ++ wobjLines ++ speedsLines
  ++ ["CONST speeddata vRough := [" ++ (natStr (params.rough_speed.getD 300)
        ++ ", 500, 5000, 1000];"),
      "CONST speeddata vFine := [" ++ (natStr (params.fine_speed.getD 200)
        ++ ", 500, 5000, 1000];")]
  ++ zonesLines ++ ioLines

/-- The point constant naming scheme `p_{stage}_{segment['id']}_{i:03d}`
of `_add_robtargets` and `_add_procedures`. -/
def targetName (stage : String) (segId : Nat) (i : Nat) : String :=
  "p_" ++ (stage ++ ("_" ++ (natStr segId ++ ("_" ++ pad3 i))))

/-- The bracketed value of one `RAPIDTemplates.ROBTARGET` line: positions
at three decimals, orientation components at six.  The source reads
`pt['orient'][0]` through `[3]`; enriched points always carry four
components, modelled with `getD`. -/
def robtargetValue (pt : PathPoint) : String :=
  "[[" ++ (fmtFixed 3 pt.pos.1 ++ ("," ++
    (fmtFixed 3 pt.pos.2.1 ++ ("," ++ (fmtFixed 3 pt.pos.2.2 ++ ("],[" ++
    (fmt6F (pt.orient.getD 0 none) ++ ("," ++ (fmt6F (pt.orient.getD 1 none) ++ ("," ++
    (fmt6F (pt.orient.getD 2 none) ++ ("," ++ (fmt6F (pt.orient.getD 3 none) ++
    "],[0,0,0,0],[9E9,9E9,9E9,9E9,9E9,9E9]];")))))))))))))

/-- One line of `RAPIDTemplates.ROBTARGET` after interpolation. -/
def robtargetDeclLine (nm : String) (pt : PathPoint) : String :=
  "CONST robtarget " ++ (nm ++ (" := " ++ robtargetValue pt))

/-- `RAPIDGenerator._add_robtargets` (lines 170-191): a header comment,
then one `CONST robtarget` line per enriched point of every stage in
dictionary order. -/
def robtargetLines (paths : PathsDict) : List String :=
  ["", "! --- 目标点定义 ---"]
  ++ paths.flatMap (fun sp => sp.2.flatMap (fun seg =>
       seg.points.enum.map (fun ip => robtargetDeclLine (targetName sp.1 seg.id ip.1) ip.2)))

/-- `AdvancedFeatures.get_force_control_logic` (lines 60-73), emitted by
`generate` when `params.get('enable_force_control')` is truthy. -/
def forceLines (params : GenParams) : List String :=
  if params.enable_force_control then
    ["",
     "! --- 高级功能: 力控制 ---",
     "CONST forcedata fPolishing := [1, [[0,0,0.1], [1,0,0,0]], 50, 50];",
     "PROC ActivateForceControl()",
     "    ForceDef fPolishing, [[0,0," ++ (pyFloatStr (params.target_force.getD 30)
       ++ "]], tPolishingTool;"),
     "    ForceAct fPolishing;",
     "ENDPROC",
     "PROC DeactivateForceControl()",
     "    StopForce;",
     "ENDPROC"]
  else []

/-- One `MoveL` instruction line of `_add_procedures`. -/
def moveLine (stage : String) (segId i : Nat) : String :=
  "    MoveL " ++ (targetName stage segId i ++ (", " ++
    ((if stage = "rough" then "vRough" else "vFine") ++ (", " ++
    ((if stage = "rough" then "zMedium" else "zFine") ++
      ", tPolishingTool \\WObj:=wWorkpiece;")))))

/-- The procedure emitted by `_add_procedures` for one stage present in
the paths dictionary (lines 193-226 of the source). -/
def stageProcLines (params : GenParams) (stage : String) (segs : List Segment) :
    List String :=
  ["",
   "PROC Path_" ++ (stage ++ "()"),
   "    TPWrite \"Executing " ++ (stage ++ " polishing...\";")]
  ++ (if params.enable_force_control then ["    ActivateForceControl;"] else [])
  ++ segs.flatMap (fun seg =>
       ["", "    ! Segment " ++ natStr seg.id]
       ++ (List.range seg.points.length).map (fun i => moveLine stage seg.id i))
  ++ (if params.enable_force_control then ["    DeactivateForceControl;"] else [])
  ++ ["ENDPROC"]

/-- The stages the procedure emitter iterates:
`for stage_name in ['rough', 'fine']: if stage_name not in paths: continue`. -/
def presentStages (paths : PathsDict) : List (String × List Segment) :=
  ["rough", "fine"].filterMap (fun s => (lookupSegs paths s).map (fun segs => (s, segs)))

/-- `RAPIDGenerator._add_procedures` (lines 193-226). -/
def proceduresLines (paths : PathsDict) (params : GenParams) : List String :=
  (presentStages paths).flatMap (fun sp => stageProcLines params sp.1 sp.2)

/-- `RAPIDGenerator._add_main` (lines 228-244): fixed IO bracketing with
one call per stage key present in the paths dictionary. -/
def mainLines (paths : PathsDict) : List String :=
  ["",
   "PROC main()",
   "    TPWrite \"Starting Polishing Cycle\";",
   "    ! 初始化 IO",
   "    SetDO doSpindleStart, 1;",
   "    WaitTime 1;"]
  ++ (if (lookupSegs paths "rough").isSome then ["    Path_rough;"] else [])
  ++ (if (lookupSegs paths "fine").isSome then ["    Path_fine;"] else [])
  ++ ["    SetDO doSpindleStart, 0;",
      "    TPWrite \"Cycle Complete\";",
      "ENDPROC"]

/-- All lines of the generated module, in emission order (`generate`,
lines 98-130 of the source: header, data declarations, robtargets,
optional force-control block, per-stage procedures, main, ENDMODULE). -/
def generateLines (ctx : GenContext) (timestamp : String) : List String :=
  headerLines ctx timestamp
  ++ dataDeclLines ctx.params
  ++ robtargetLines ctx.paths
  ++ forceLines ctx.params
  ++ proceduresLines ctx.paths ctx.params
  ++ mainLines ctx.paths
  ++ ["ENDMODULE"]

/-- `"\n".join(...)` over the emitted lines. -/
def joinLines : List String → String
  | [] => ""
  | [l] => l
  | l :: l' :: ls => l ++ "\n" ++ joinLines (l' :: ls)

/-- Shallow embedding of `RAPIDGenerator.generate`: the full program
text as a function of the context dictionary and of the wall clock
reading `datetime.datetime.now().strftime("%Y-%m-%d %H:%M:%S")` that
`_add_header` interpolates. -/
def generate (ctx : GenContext) (timestamp : String) : String :=
  joinLines (generateLines ctx timestamp)

/-- The point constant names referenced by `MoveL` instructions, in
emission order. -/
def moveNames (paths : PathsDict) : List String :=
  (presentStages paths).flatMap (fun sp => sp.2.flatMap (fun seg =>
    (List.range seg.points.length).map (fun i => targetName sp.1 seg.id i)))

/-- The point constant names declared by the robtargets section, in
emission order. -/
def declaredNames (paths : PathsDict) : List String :=
  paths.flatMap (fun sp => sp.2.flatMap (fun seg =>
    (List.range seg.points.length).map (fun i => targetName sp.1 seg.id i)))

/-!
Line classification, written against the text of a line.  Occurrences of
the `PROC`/`ENDPROC` keywords are counted as lines: `ENDPROC` textually
contains the substring `PROC`, so a raw substring count would make the
balance property false for any program; the RAPID keywords occur in the
emitted text exactly as a line starting with the keyword (`PROC `,
`MODULE `) or as a line consisting of the closing keyword.
-/

def isProcLine (l : String) : Bool := "PROC ".data.isPrefixOf l.data

def isEndprocLine (l : String) : Bool := l.data == "ENDPROC".data

def isModuleLine (l : String) : Bool := "MODULE ".data.isPrefixOf l.data

def isEndmoduleLine (l : String) : Bool := l.data == "ENDMODULE".data

/-- A line declaring the point constant `nm`. -/
def isDeclOfLine (nm : String) (l : String) : Bool :=
  ("CONST robtarget " ++ (nm ++ " :=")).data.isPrefixOf l.data

/-- A line moving to the point constant `nm`. -/
def isMoveOfLine (nm : String) (l : String) : Bool :=
  ("    MoveL " ++ (nm ++ ",")).data.isPrefixOf l.data

def isStageCallLine (l : String) : Bool :=
  l.data == "    Path_rough;".data || l.data == "    Path_fine;".data

def isProcFineLine (l : String) : Bool := l.data == "PROC Path_fine()".data

def isCallFineLine (l : String) : Bool := l.data == "    Path_fine;".data

/-!
## Structural lemmas about the generated text
-/

theorem strExt (a b : String) (h : a.data = b.data) : a = b := congrArg String.mk h

theorem isPrefixOf_append_both (a : List Char) :
    ∀ (b c : List Char), (a ++ b).isPrefixOf (a ++ c) = b.isPrefixOf c := by
  induction a with
  | nil => intro b c; rfl
  | cons x a ih =>
    intro b c
    show (x == x && (a ++ b).isPrefixOf (a ++ c)) = b.isPrefixOf c
    rw [ih b c, beq_self_eq_true, Bool.true_and]

/-- If two marker-free chunks are each followed by the marker, a prefix
relation between the combined lists forces the chunks to be equal. -/
theorem marker_isPrefixOf_eq (mk : Char) :
    ∀ (x y r r' : List Char), (∀ c ∈ x, c ≠ mk) → (∀ c ∈ y, c ≠ mk) →
      (x ++ mk :: r).isPrefixOf (y ++ mk :: r') = true → x = y := by
  intro x
  induction x with
  | nil =>
    intro y r r' _ hy h
    cases y with
    | nil => rfl
    | cons c y' =>
      exfalso
      have h1 : (mk == c && (r.isPrefixOf (y' ++ mk :: r'))) = true := h
      have h2 : mk = c ∧ r.isPrefixOf (y' ++ mk :: r') = true := by simpa using h1
      exact hy c (List.mem_cons_self c y') h2.1.symm
  | cons a x' ih =>
    intro y r r' hx hy h
    cases y with
    | nil =>
      exfalso
      have h1 : (a == mk && ((x' ++ mk :: r).isPrefixOf r')) = true := h
      have h2 : a = mk ∧ (x' ++ mk :: r).isPrefixOf r' = true := by simpa using h1
      exact hx a (List.mem_cons_self a x') h2.1
    | cons c y' =>
      have h1 : (a == c && ((x' ++ mk :: r).isPrefixOf (y' ++ mk :: r'))) = true := h
      have h2 : a = c ∧ (x' ++ mk :: r).isPrefixOf (y' ++ mk :: r') = true := by simpa using h1
      have hac : a = c := h2.1
      have hrec := h2.2
      have hx' : ∀ d ∈ x', d ≠ mk := fun d hd => hx d (List.mem_cons_of_mem a hd)
      have hy' : ∀ d ∈ y', d ≠ mk := fun d hd => hy d (List.mem_cons_of_mem c hd)
      rw [hac, ih y' r r' hx' hy' hrec]

/-- Equality version of the marker splitting. -/
theorem marker_append_eq (mk : Char) :
    ∀ (x y r r' : List Char), (∀ c ∈ x, c ≠ mk) → (∀ c ∈ y, c ≠ mk) →
      x ++ mk :: r = y ++ mk :: r' → x = y ∧ r = r' := by
  intro x
  induction x with
  | nil =>
    intro y r r' _ hy h
    cases y with
    | nil => simpa using h
    | cons c y' =>
      exfalso
      have : mk = c := by
        have := congrArg List.head? h
        simpa using this
      exact hy c (List.mem_cons_self c y') this.symm
  | cons a x' ih =>
    intro y r r' hx hy h
    cases y with
    | nil =>
      exfalso
      have : a = mk := by
        have := congrArg List.head? h
        simpa using this
      exact hx a (List.mem_cons_self a x') this
    | cons c y' =>
      have hac : a = c := by
        have := congrArg List.head? h
        simpa using this
      have htl : x' ++ mk :: r = y' ++ mk :: r' := by
        have := congrArg List.tail h
        simpa using this
      have hx' : ∀ d ∈ x', d ≠ mk := fun d hd => hx d (List.mem_cons_of_mem a hd)
      have hy' : ∀ d ∈ y', d ≠ mk := fun d hd => hy d (List.mem_cons_of_mem c hd)
      rcases ih y' r r' hx' hy' htl with ⟨h1, h2⟩
      exact ⟨by rw [hac, h1], h2⟩

theorem lookup_mem {β : Type} (s : String) (v : β) :
    ∀ (l : List (String × β)), List.lookup s l = some v → (s, v) ∈ l := by
  intro l
  induction l with
  | nil => intro h; simp [List.lookup] at h
  | cons p t ih =>
    intro h
    rcases p with ⟨k, w⟩
    cases he : (s == k) with
    | true =>
      rw [List.lookup, he] at h
      have hw : w = v := by simpa using h
      have hk : s = k := eq_of_beq he
      exact List.mem_cons.mpr (Or.inl (by rw [hk, hw]))
    | false =>
      rw [List.lookup, he] at h
      exact List.mem_cons_of_mem _ (ih (by simpa using h))

theorem sum_map_ones {α : Type} (g : α → Nat) :
    ∀ (l : List α), (∀ x ∈ l, g x = 1) → (l.map g).sum = l.length := by
  intro l
  induction l with
  | nil => intro _; rfl
  | cons a t ih =>
    intro h
    rw [List.map_cons, List.sum_cons, h a (List.mem_cons_self a t),
      ih (fun x hx => h x (List.mem_cons_of_mem a hx))]
    simp [Nat.add_comm]

theorem targetName_data (s : String) (segId i : Nat) :
    (targetName s segId i).data
      = "p_".data ++ (s.data ++ ('_' :: ((natStr segId).data ++ ('_' :: (pad3 i).data)))) := rfl

theorem targetName_no_space (s : String) (segId i : Nat)
    (hs : ∀ c ∈ s.data, c ≠ ' ') :
    ∀ c ∈ (targetName s segId i).data, c ≠ ' ' := by
  intro c hc
  rw [targetName_data] at hc
  rcases List.mem_append.mp hc with h | h
  · have : c = 'p' ∨ c = '_' := by simpa using h
    rcases this with rfl | rfl <;> decide
  · rcases List.mem_append.mp h with h | h
    · exact hs c h
    · rcases List.mem_cons.mp h with rfl | h
      · decide
      · rcases List.mem_append.mp h with h | h
        · exact (natStr_chars segId c h).2
        · rcases List.mem_cons.mp h with rfl | h
          · decide
          · exact (pad3_chars i c h).2

theorem targetName_inj_id_i (s : String) (segId i segId' i' : Nat)
    (h : targetName s segId i = targetName s segId' i') : segId = segId' ∧ i = i' := by
  have hd := congrArg String.data h
  rw [targetName_data, targetName_data] at hd
  have h1 := List.append_cancel_left hd
  have h2 := List.append_cancel_left h1
  have h3 : (natStr segId).data ++ '_' :: (pad3 i).data
      = (natStr segId').data ++ '_' :: (pad3 i').data := by
    simpa using h2
  rcases marker_append_eq '_' _ _ _ _ (fun c hc => (natStr_chars segId c hc).1)
      (fun c hc => (natStr_chars segId' c hc).1) h3 with ⟨ha, hb⟩
  exact ⟨natStr_injective (strExt _ _ ha), pad3_injective (strExt _ _ hb)⟩

theorem targetName_rough_ne_fine (segId i segId' i' : Nat) :
    targetName "rough" segId i ≠ targetName "fine" segId' i' := by
  intro h
  have h2 := congrArg (fun t => t.data.get? 2) h
  have h3 : (some 'r' : Option Char) = some 'f' := by
    have e1 : (targetName "rough" segId i).data.get? 2 = some 'r' := rfl
    have e2 : (targetName "fine" segId' i').data.get? 2 = some 'f' := rfl
    rw [← e1, ← e2]
    exact h2
  simp at h3

/-- `isDeclOfLine` against an emitted declaration line tests exactly name
equality, because point constant names contain no space and the name
field is delimited by a space on both sides. -/
theorem isDeclOfLine_declLine (nm nm' : String) (pt : PathPoint)
    (h1 : ∀ c ∈ nm.data, c ≠ ' ') (h2 : ∀ c ∈ nm'.data, c ≠ ' ') :
    isDeclOfLine nm (robtargetDeclLine nm' pt) = (nm == nm') := by
  have key : isDeclOfLine nm (robtargetDeclLine nm' pt)
      = (nm.data ++ ' ' :: [':', '=']).isPrefixOf
        (nm'.data ++ ' ' :: (':' :: '=' :: ' ' :: (robtargetValue pt).data)) :=
    isPrefixOf_append_both "CONST robtarget ".data _ _
  rw [key]
  by_cases heq : nm = nm'
  · subst heq
    rw [beq_self_eq_true]
    have h3 := isPrefixOf_append_both nm.data (' ' :: [':', '='])
      (' ' :: (':' :: '=' :: ' ' :: (robtargetValue pt).data))
    rw [h3]
    rfl
  · rw [beq_eq_false_iff_ne.mpr heq]
    by_contra hcon
    rw [Bool.not_eq_false] at hcon
    exact heq (strExt _ _ (marker_isPrefixOf_eq ' ' _ _ _ _ h1 h2 hcon))

theorem count_segNames_eq_one (s : String) (segId i len : Nat) (hi : i < len) :
    ((List.range len).map (fun j => targetName s segId j)).count (targetName s segId i) = 1 := by
  have hinj : Function.Injective (fun j => targetName s segId j) := by
    intro a b hab
    exact (targetName_inj_id_i s segId a segId b hab).2
  rw [show targetName s segId i = (fun j => targetName s segId j) i from rfl]
  rw [List.count_map_of_injective _ _ hinj]
  exact List.count_eq_one_of_mem (List.nodup_range len) (List.mem_range.mpr hi)

theorem count_segNames_eq_zero (s : String) (segId segId' i len : Nat)
    (hne : segId' ≠ segId) :
    ((List.range len).map (fun j => targetName s segId' j)).count (targetName s segId i) = 0 := by
  rw [List.count_eq_zero]
  intro hmem
  rcases List.mem_map.mp hmem with ⟨j, _, heq⟩
  exact hne (targetName_inj_id_i s segId' j segId i heq).1

/-- The names of one stage, as emitted by both the declaration and the
move sections. -/
def stageNames (s : String) (segs : List Segment) : List String :=
  segs.flatMap (fun sg => (List.range sg.points.length).map (fun j => targetName s sg.id j))

theorem count_stageNames_one (s : String) (seg : Segment) (i : Nat)
    (hi : i < seg.points.length) :
    ∀ (segs : List Segment), (segs.map Segment.id).Nodup → seg ∈ segs →
      (stageNames s segs).count (targetName s seg.id i) = 1 := by
  intro segs
  induction segs with
  | nil => intro _ h; simp at h
  | cons sg t ih =>
    intro hnd hmem
    rw [stageNames, List.flatMap_cons, List.count_append]
    have hnd' : (t.map Segment.id).Nodup := (List.nodup_cons.mp hnd).2
    have hnotmem : sg.id ∉ t.map Segment.id := (List.nodup_cons.mp hnd).1
    rcases List.mem_cons.mp hmem with rfl | hmem'
    · rw [count_segNames_eq_one s seg.id i seg.points.length hi]
      have hz : (t.flatMap (fun sg' => (List.range sg'.points.length).map
          (fun j => targetName s sg'.id j))).count (targetName s seg.id i) = 0 := by
        rw [List.count_eq_zero]
        intro hmem2
        rcases List.mem_flatMap.mp hmem2 with ⟨sg', hsg', hmem3⟩
        rcases List.mem_map.mp hmem3 with ⟨j, _, heq⟩
        have hid : sg'.id = seg.id := (targetName_inj_id_i s sg'.id j seg.id i heq).1
        exact hnotmem (hid ▸ List.mem_map_of_mem Segment.id hsg')
      rw [hz]
    · have hids : seg.id ∈ t.map Segment.id := List.mem_map_of_mem _ hmem'
      have hne : sg.id ≠ seg.id := fun hc => hnotmem (hc ▸ hids)
      rw [count_segNames_eq_zero s seg.id sg.id i _ hne]
      have := ih hnd' hmem'
      rw [stageNames] at this
      rw [this]

theorem count_stageNames_zero_of_ne (s s' : String)
    (hs : s = "rough" ∨ s = "fine") (hs' : s' = "rough" ∨ s' = "fine") (hne : s' ≠ s)
    (segId i : Nat) (segs : List Segment) :
    (stageNames s' segs).count (targetName s segId i) = 0 := by
  rw [List.count_eq_zero]
  intro hmem
  rcases List.mem_flatMap.mp hmem with ⟨sg', _, hmem2⟩
  rcases List.mem_map.mp hmem2 with ⟨j, _, heq⟩
  rcases hs with rfl | rfl <;> rcases hs' with rfl | rfl
  · exact hne rfl
  · exact targetName_rough_ne_fine segId i sg'.id j heq.symm
  · exact targetName_rough_ne_fine sg'.id j segId i heq
  · exact hne rfl

theorem declaredNames_eq (paths : PathsDict) :
    declaredNames paths = paths.flatMap (fun sp => stageNames sp.1 sp.2) := rfl

theorem declaredNames_count_one (paths : PathsDict)
    (hkeys : ∀ p ∈ paths, p.1 = "rough" ∨ p.1 = "fine")
    (hnodupKeys : (paths.map Prod.fst).Nodup)
    (hnodupIds : ∀ p ∈ paths, (p.2.map Segment.id).Nodup)
    (s : String) (segs : List Segment) (seg : Segment) (i : Nat)
    (hmem : (s, segs) ∈ paths) (hseg : seg ∈ segs) (hi : i < seg.points.length) :
    (declaredNames paths).count (targetName s seg.id i) = 1 := by
  rw [declaredNames_eq]
  induction paths with
  | nil => simp at hmem
  | cons p t ih =>
    rw [List.flatMap_cons, List.count_append]
    have hkeys' : ∀ q ∈ t, q.1 = "rough" ∨ q.1 = "fine" :=
      fun q hq => hkeys q (List.mem_cons_of_mem p hq)
    have hnodupKeys' : (t.map Prod.fst).Nodup := (List.nodup_cons.mp hnodupKeys).2
    have hheadnot : p.1 ∉ t.map Prod.fst := (List.nodup_cons.mp hnodupKeys).1
    have hnodupIds' : ∀ q ∈ t, (q.2.map Segment.id).Nodup :=
      fun q hq => hnodupIds q (List.mem_cons_of_mem p hq)
    rcases List.mem_cons.mp hmem with heq | hmem'
    · subst heq
      have hz : (t.flatMap (fun sp => stageNames sp.1 sp.2)).count
          (targetName s seg.id i) = 0 := by
        rw [List.count_eq_zero]
        intro hmem2
        rcases List.mem_flatMap.mp hmem2 with ⟨sp, hsp, hmem3⟩
        by_cases hss : sp.1 = s
        · exact hheadnot (by simpa [← hss] using List.mem_map_of_mem Prod.fst hsp)
        · have hcount := count_stageNames_zero_of_ne s sp.1
            (by simpa using hkeys (s, segs) (List.mem_cons_self _ t))
            (hkeys' sp hsp) hss seg.id i sp.2
          rw [List.count_eq_zero] at hcount
          exact hcount hmem3
      rw [hz]
      have hone := count_stageNames_one s seg i hi segs
        (by simpa using hnodupIds (s, segs) (List.mem_cons_self _ t)) hseg
      simpa using hone
    · have hs : s = "rough" ∨ s = "fine" := by
        have := hkeys (s, segs) (List.mem_cons_of_mem p hmem')
        simpa using this
      have hp : p.1 = "rough" ∨ p.1 = "fine" := hkeys p (List.mem_cons_self p t)
      have hsmem : s ∈ t.map Prod.fst := by
        have : (s, segs).1 ∈ t.map Prod.fst := List.mem_map_of_mem _ hmem'
        simpa using this
      have hne : p.1 ≠ s := fun hc => hheadnot (hc ▸ hsmem)
      rw [count_stageNames_zero_of_ne s p.1 hs hp hne seg.id i p.2]
      rw [ih (fun q hq => hkeys' q hq) hnodupKeys' (fun q hq => hnodupIds' q hq) hmem']

/-- Counting declaration lines of a name over the robtargets section is
counting the name among the declared names. -/
theorem countP_decl_robtargetLines (paths : PathsDict) (nm : String)
    (hnm : ∀ c ∈ nm.data, c ≠ ' ')
    (hkeys : ∀ p ∈ paths, p.1 = "rough" ∨ p.1 = "fine") :
    (robtargetLines paths).countP (isDeclOfLine nm) = (declaredNames paths).count nm := by
  rw [robtargetLines, declaredNames, List.countP_append]
  have h0 : List.countP (isDeclOfLine nm) ["", "! --- 目标点定义 ---"] = 0 := rfl
  rw [h0, Nat.zero_add, List.countP_flatMap, List.count_flatMap]
  apply congrArg List.sum
  apply List.map_congr_left
  intro sp hsp
  show (sp.2.flatMap _).countP (isDeclOfLine nm) = (sp.2.flatMap _).count nm
  rw [List.countP_flatMap, List.count_flatMap]
  apply congrArg List.sum
  apply List.map_congr_left
  intro seg _
  show (seg.points.enum.map _).countP (isDeclOfLine nm)
      = ((List.range seg.points.length).map _).count nm
  rw [List.countP_map]
  have hstage : ∀ c ∈ sp.1.data, c ≠ ' ' := by
    rcases hkeys sp hsp with h | h <;> rw [h] <;> intro c hc <;>
      fin_cases hc <;> decide
  have hrhs : ((List.range seg.points.length).map
        (fun j => targetName sp.1 seg.id j)).count nm
      = (List.range seg.points.length).countP
        (fun j => targetName sp.1 seg.id j == nm) := by
    show List.countP _ _ = _
    rw [List.countP_map]
    rfl
  rw [hrhs]
  have hlhs : (seg.points.enum).countP
        ((isDeclOfLine nm) ∘ (fun ip => robtargetDeclLine (targetName sp.1 seg.id ip.1) ip.2))
      = (seg.points.enum).countP
        ((fun j => targetName sp.1 seg.id j == nm) ∘ Prod.fst) := by
    apply List.countP_congr
    intro ip _
    show isDeclOfLine nm (robtargetDeclLine (targetName sp.1 seg.id ip.1) ip.2) = true
        ↔ (targetName sp.1 seg.id ip.1 == nm) = true
    rw [isDeclOfLine_declLine nm _ ip.2 hnm
      (targetName_no_space sp.1 seg.id ip.1 hstage)]
    rw [Bool.beq_comm]
  rw [hlhs, ← List.countP_map, List.enum_map_fst]

/-- The rough/fine mismatch case in the first rcases of `hstage` above
splits on five letters for `rough` and four for `fine`; the shared proof
script handles both.  This lemma packages the same fact for reuse. -/
theorem stage_no_space (s : String) (hs : s = "rough" ∨ s = "fine") :
    ∀ c ∈ s.data, c ≠ ' ' := by
  rcases hs with rfl | rfl <;> intro c hc <;> fin_cases hc <;> decide

theorem countP_if_zero (P : String → Bool) (c : Prop) [Decidable c] (l : List String)
    (h : l.countP P = 0) : (if c then l else []).countP P = 0 := by
  by_cases hc : c
  · rw [if_pos hc]; exact h
  · rw [if_neg hc]; rfl

theorem sum_map_zeros {α : Type} (g : α → Nat) :
    ∀ (l : List α), (∀ x ∈ l, g x = 0) → (l.map g).sum = 0 := by
  intro l
  induction l with
  | nil => intro _; rfl
  | cons a t ih =>
    intro h
    rw [List.map_cons, List.sum_cons, h a (List.mem_cons_self a t),
      ih (fun x hx => h x (List.mem_cons_of_mem a hx))]

theorem countP_robtargetLines_zero (paths : PathsDict) (P : String → Bool)
    (h1 : P "" = false) (h2 : P "! --- 目标点定义 ---" = false)
    (h3 : ∀ nm pt, P (robtargetDeclLine nm pt) = false) :
    (robtargetLines paths).countP P = 0 := by
  rw [List.countP_eq_zero]
  intro l hl
  rw [robtargetLines] at hl
  rcases List.mem_append.mp hl with h | h
  · rcases List.mem_cons.mp h with rfl | h
    · simp [h1]
    · rcases List.mem_cons.mp h with rfl | h
      · simp [h2]
      · simp at h
  · rcases List.mem_flatMap.mp h with ⟨sp, _, h⟩
    rcases List.mem_flatMap.mp h with ⟨seg, _, h⟩
    rcases List.mem_map.mp h with ⟨ip, _, rfl⟩
    simp [h3]

theorem countP_segBody_zero (P : String → Bool) (stage : String) (segs : List Segment)
    (hempty : P "" = false)
    (hsegcmt : ∀ n, P ("    ! Segment " ++ natStr n) = false)
    (hmove : ∀ sid i, P (moveLine stage sid i) = false) :
    (segs.flatMap (fun seg => ["", "    ! Segment " ++ natStr seg.id]
      ++ (List.range seg.points.length).map (fun i => moveLine stage seg.id i))).countP P
      = 0 := by
  rw [List.countP_eq_zero]
  intro l hl
  rcases List.mem_flatMap.mp hl with ⟨seg, _, h⟩
  rcases List.mem_append.mp h with h | h
  · rcases List.mem_cons.mp h with rfl | h
    · simp [hempty]
    · rcases List.mem_cons.mp h with rfl | h
      · simp [hsegcmt]
      · simp at h
  · rcases List.mem_map.mp h with ⟨i, _, rfl⟩
    simp [hmove]

theorem countP_proc_stageProc (params : GenParams) (stage : String) (segs : List Segment) :
    (stageProcLines params stage segs).countP isProcLine = 1 := by
  rw [stageProcLines]
  rw [List.countP_append, List.countP_append, List.countP_append, List.countP_append]
  rw [show List.countP isProcLine ["", "PROC Path_" ++ (stage ++ "()"),
      "    TPWrite \"Executing " ++ (stage ++ " polishing...\";")] = 1 from rfl]
  rw [countP_if_zero isProcLine _ _ (by rfl), countP_if_zero isProcLine _ _ (by rfl)]
  rw [countP_segBody_zero isProcLine stage segs rfl (fun n => rfl) (fun sid i => rfl)]
  rfl

theorem countP_endproc_stageProc (params : GenParams) (stage : String) (segs : List Segment) :
    (stageProcLines params stage segs).countP isEndprocLine = 1 := by
  rw [stageProcLines]
  rw [List.countP_append, List.countP_append, List.countP_append, List.countP_append]
  rw [show List.countP isEndprocLine ["", "PROC Path_" ++ (stage ++ "()"),
      "    TPWrite \"Executing " ++ (stage ++ " polishing...\";")] = 0 from rfl]
  rw [countP_if_zero isEndprocLine _ _ (by rfl), countP_if_zero isEndprocLine _ _ (by rfl)]
  rw [countP_segBody_zero isEndprocLine stage segs rfl (fun n => rfl) (fun sid i => rfl)]
  rfl

theorem countP_module_stageProc (params : GenParams) (stage : String) (segs : List Segment) :
    (stageProcLines params stage segs).countP isModuleLine = 0 := by
  rw [stageProcLines]
  rw [List.countP_append, List.countP_append, List.countP_append, List.countP_append]
  rw [show List.countP isModuleLine ["", "PROC Path_" ++ (stage ++ "()"),
      "    TPWrite \"Executing " ++ (stage ++ " polishing...\";")] = 0 from rfl]
  rw [countP_if_zero isModuleLine _ _ (by rfl), countP_if_zero isModuleLine _ _ (by rfl)]
  rw [countP_segBody_zero isModuleLine stage segs rfl (fun n => rfl) (fun sid i => rfl)]
  rfl

theorem countP_endmodule_stageProc (params : GenParams) (stage : String) (segs : List Segment) :
    (stageProcLines params stage segs).countP isEndmoduleLine = 0 := by
  rw [stageProcLines]
  rw [List.countP_append, List.countP_append, List.countP_append, List.countP_append]
  rw [show List.countP isEndmoduleLine ["", "PROC Path_" ++ (stage ++ "()"),
      "    TPWrite \"Executing " ++ (stage ++ " polishing...\";")] = 0 from rfl]
  rw [countP_if_zero isEndmoduleLine _ _ (by rfl), countP_if_zero isEndmoduleLine _ _ (by rfl)]
  rw [countP_segBody_zero isEndmoduleLine stage segs rfl (fun n => rfl) (fun sid i => rfl)]
  rfl

theorem countP_declOf_stageProc (nm : String) (params : GenParams) (stage : String)
    (segs : List Segment) :
    (stageProcLines params stage segs).countP (isDeclOfLine nm) = 0 := by
  rw [stageProcLines]
  rw [List.countP_append, List.countP_append, List.countP_append, List.countP_append]
  rw [show List.countP (isDeclOfLine nm) ["", "PROC Path_" ++ (stage ++ "()"),
      "    TPWrite \"Executing " ++ (stage ++ " polishing...\";")] = 0 from rfl]
  rw [countP_if_zero (isDeclOfLine nm) _ _ (by rfl), countP_if_zero (isDeclOfLine nm) _ _ (by rfl)]
  rw [countP_segBody_zero (isDeclOfLine nm) stage segs rfl (fun n => rfl) (fun sid i => rfl)]
  rfl

theorem countP_proc_mainLines (paths : PathsDict) :
    (mainLines paths).countP isProcLine = 1 := by
  rw [mainLines]
  rw [List.countP_append, List.countP_append, List.countP_append]
  rw [countP_if_zero isProcLine _ _ (by rfl), countP_if_zero isProcLine _ _ (by rfl)]
  rfl

theorem countP_endproc_mainLines (paths : PathsDict) :
    (mainLines paths).countP isEndprocLine = 1 := by
  rw [mainLines]
  rw [List.countP_append, List.countP_append, List.countP_append]
  rw [countP_if_zero isEndprocLine _ _ (by rfl), countP_if_zero isEndprocLine _ _ (by rfl)]
  rfl

theorem countP_module_mainLines (paths : PathsDict) :
    (mainLines paths).countP isModuleLine = 0 := by
  rw [mainLines]
  rw [List.countP_append, List.countP_append, List.countP_append]
  rw [countP_if_zero isModuleLine _ _ (by rfl), countP_if_zero isModuleLine _ _ (by rfl)]
  rfl

theorem countP_endmodule_mainLines (paths : PathsDict) :
    (mainLines paths).countP isEndmoduleLine = 0 := by
  rw [mainLines]
  rw [List.countP_append, List.countP_append, List.countP_append]
  rw [countP_if_zero isEndmoduleLine _ _ (by rfl), countP_if_zero isEndmoduleLine _ _ (by rfl)]
  rfl

theorem countP_declOf_mainLines (nm : String) (paths : PathsDict) :
    (mainLines paths).countP (isDeclOfLine nm) = 0 := by
  rw [mainLines]
  rw [List.countP_append, List.countP_append, List.countP_append]
  rw [countP_if_zero (isDeclOfLine nm) _ _ (by rfl), countP_if_zero (isDeclOfLine nm) _ _ (by rfl)]
  rfl

theorem countP_proc_forceLines (params : GenParams) :
    (forceLines params).countP isProcLine
      = if params.enable_force_control then 2 else 0 := by
  rw [forceLines]
  by_cases h : params.enable_force_control
  · rw [if_pos h, if_pos h]; rfl
  · rw [if_neg h, if_neg h]; rfl

theorem countP_endproc_forceLines (params : GenParams) :
    (forceLines params).countP isEndprocLine
      = if params.enable_force_control then 2 else 0 := by
  rw [forceLines]
  by_cases h : params.enable_force_control
  · rw [if_pos h, if_pos h]; rfl
  · rw [if_neg h, if_neg h]; rfl

theorem countP_module_forceLines (params : GenParams) :
    (forceLines params).countP isModuleLine = 0 := by
  rw [forceLines]
  by_cases h : params.enable_force_control
  · rw [if_pos h]; rfl
  · rw [if_neg h]; rfl

theorem countP_endmodule_forceLines (params : GenParams) :
    (forceLines params).countP isEndmoduleLine = 0 := by
  rw [forceLines]
  by_cases h : params.enable_force_control
  · rw [if_pos h]; rfl
  · rw [if_neg h]; rfl

theorem countP_declOf_forceLines (nm : String) (params : GenParams) :
    (forceLines params).countP (isDeclOfLine nm) = 0 := by
  rw [forceLines]
  by_cases h : params.enable_force_control
  · rw [if_pos h]; rfl
  · rw [if_neg h]; rfl

theorem countP_generate_proc (ctx : GenContext) (t : String) :
    (generateLines ctx t).countP isProcLine
      = (if ctx.params.enable_force_control then 2 else 0)
        + ((presentStages ctx.paths).length + 1) := by
  rw [generateLines]
  rw [List.countP_append, List.countP_append, List.countP_append, List.countP_append,
    List.countP_append, List.countP_append]
  rw [show (headerLines ctx t).countP isProcLine = 0 from rfl]
  rw [show (dataDeclLines ctx.params).countP isProcLine = 0 from rfl]
  rw [countP_robtargetLines_zero _ _ rfl rfl (fun nm pt => rfl)]
  rw [countP_proc_forceLines]
  rw [proceduresLines, List.countP_flatMap,
    sum_map_ones _ _ (fun sp _ => countP_proc_stageProc ctx.params sp.1 sp.2)]
  rw [countP_proc_mainLines]
  rw [show List.countP isProcLine ["ENDMODULE"] = 0 from rfl]
  omega

theorem countP_generate_endproc (ctx : GenContext) (t : String) :
    (generateLines ctx t).countP isEndprocLine
      = (if ctx.params.enable_force_control then 2 else 0)
        + ((presentStages ctx.paths).length + 1) := by
  rw [generateLines]
  rw [List.countP_append, List.countP_append, List.countP_append, List.countP_append,
    List.countP_append, List.countP_append]
  rw [show (headerLines ctx t).countP isEndprocLine = 0 from rfl]
  rw [show (dataDeclLines ctx.params).countP isEndprocLine = 0 from rfl]
  rw [countP_robtargetLines_zero _ _ rfl rfl (fun nm pt => rfl)]
  rw [countP_endproc_forceLines]
  rw [proceduresLines, List.countP_flatMap,
    sum_map_ones _ _ (fun sp _ => countP_endproc_stageProc ctx.params sp.1 sp.2)]
  rw [countP_endproc_mainLines]
  rw [show List.countP isEndprocLine ["ENDMODULE"] = 0 from rfl]
  omega

theorem isModuleLine_module (x : String) : isModuleLine ("MODULE " ++ x) = true := by
  show ("MODULE ".data).isPrefixOf ("MODULE ".data ++ x.data) = true
  rw [isPrefixOf_append_of_le _ _ _ (le_refl _)]
  rfl

theorem countP_module_headerLines (ctx : GenContext) (t : String) :
    (headerLines ctx t).countP isModuleLine = 1 := by
  rw [headerLines]
  simp only [List.countP_cons, List.countP_nil, isModuleLine_module,
    show isModuleLine sepLine = false from rfl,
    show isModuleLine "! 生成器: ABB Polishing Studio v2.0" = false from rfl,
    show isModuleLine ("! 生成时间: " ++ t) = false from rfl,
    show isModuleLine ("! 机器人: " ++ ctx.params.robot_model.getD "IRB 2600") = false from rfl]
  rfl

theorem countP_generate_module (ctx : GenContext) (t : String) :
    (generateLines ctx t).countP isModuleLine = 1 := by
  rw [generateLines]
  rw [List.countP_append, List.countP_append, List.countP_append, List.countP_append,
    List.countP_append, List.countP_append]
  rw [countP_module_headerLines]
  rw [show (dataDeclLines ctx.params).countP isModuleLine = 0 from rfl]
  rw [countP_robtargetLines_zero _ _ rfl rfl (fun nm pt => rfl)]
  rw [countP_module_forceLines]
  rw [proceduresLines, List.countP_flatMap,
    sum_map_zeros _ _ (fun sp _ => countP_module_stageProc ctx.params sp.1 sp.2)]
  rw [countP_module_mainLines]
  rw [show List.countP isModuleLine ["ENDMODULE"] = 0 from rfl]

theorem countP_generate_endmodule (ctx : GenContext) (t : String) :
    (generateLines ctx t).countP isEndmoduleLine = 1 := by
  rw [generateLines]
  rw [List.countP_append, List.countP_append, List.countP_append, List.countP_append,
    List.countP_append, List.countP_append]
  rw [show (headerLines ctx t).countP isEndmoduleLine = 0 from rfl]
  rw [show (dataDeclLines ctx.params).countP isEndmoduleLine = 0 from rfl]
  rw [countP_robtargetLines_zero _ _ rfl rfl (fun nm pt => rfl)]
  rw [countP_endmodule_forceLines]
  rw [proceduresLines, List.countP_flatMap,
    sum_map_zeros _ _ (fun sp _ => countP_endmodule_stageProc ctx.params sp.1 sp.2)]
  rw [countP_endmodule_mainLines]
  rw [show List.countP isEndmoduleLine ["ENDMODULE"] = 1 from rfl]

/-!
The declaration/reference ordering part of the structural-balance
contract: the generated line list splits as a prefix ending with the
robtargets section and a suffix holding every `MoveL` instruction, so
declaring a name in the prefix is declaring it earlier in the text than
every move that references it.
-/

/-- The lines of the generated module up to and including the robtargets
section. -/
def preRT (ctx : GenContext) (timestamp : String) : List String :=
  headerLines ctx timestamp ++ dataDeclLines ctx.params ++ robtargetLines ctx.paths

/-- The lines of the generated module after the robtargets section. -/
def postRT (ctx : GenContext) : List String :=
  forceLines ctx.params ++ proceduresLines ctx.paths ctx.params
  ++ mainLines ctx.paths ++ ["ENDMODULE"]

theorem generateLines_split (ctx : GenContext) (t : String) :
    generateLines ctx t = preRT ctx t ++ postRT ctx := by
  rw [generateLines, preRT, postRT]
  simp only [List.append_assoc]

/-- Destructuring a `MoveL`-referenced name into its stage, segment and
point index, with the stage entry recovered in the paths dictionary. -/
theorem moveNames_elim (paths : PathsDict) (nm : String) (h : nm ∈ moveNames paths) :
    ∃ s segs seg i, (s = "rough" ∨ s = "fine") ∧ (s, segs) ∈ paths ∧ seg ∈ segs
      ∧ i < seg.points.length ∧ nm = targetName s seg.id i := by
  rw [moveNames] at h
  rcases List.mem_flatMap.mp h with ⟨sp, hsp, h2⟩
  rcases List.mem_flatMap.mp h2 with ⟨seg, hseg, h3⟩
  rcases List.mem_map.mp h3 with ⟨i, hi, heq⟩
  rcases List.mem_filterMap.mp hsp with ⟨s, hs, hlk⟩
  have hs2 : s = "rough" ∨ s = "fine" := by simpa using hs
  rcases hlk2 : lookupSegs paths s with _ | segs
  · rw [hlk2] at hlk; simp at hlk
  · rw [hlk2] at hlk
    have hsp2 : sp = (s, segs) := by simpa using hlk.symm
    subst hsp2
    exact ⟨s, segs, seg, i, hs2, lookup_mem s segs paths hlk2,
      hseg, List.mem_range.mp hi, heq.symm⟩

theorem countP_declOf_preRT_one (ctx : GenContext) (t : String)
    (hkeys : ∀ p ∈ ctx.paths, p.1 = "rough" ∨ p.1 = "fine")
    (hnodupKeys : (ctx.paths.map Prod.fst).Nodup)
    (hnodupIds : ∀ p ∈ ctx.paths, (p.2.map Segment.id).Nodup)
    (s : String) (segs : List Segment) (seg : Segment) (i : Nat)
    (hs : s = "rough" ∨ s = "fine")
    (hmem : (s, segs) ∈ ctx.paths) (hseg : seg ∈ segs) (hi : i < seg.points.length) :
    (preRT ctx t).countP (isDeclOfLine (targetName s seg.id i)) = 1 := by
  rw [preRT, List.countP_append, List.countP_append]
  rw [show (headerLines ctx t).countP (isDeclOfLine (targetName s seg.id i)) = 0 from rfl]
  rw [show (dataDeclLines ctx.params).countP (isDeclOfLine (targetName s seg.id i)) = 0 from rfl]
  rw [countP_decl_robtargetLines ctx.paths _
    (targetName_no_space s seg.id i (stage_no_space s hs)) hkeys]
  rw [declaredNames_count_one ctx.paths hkeys hnodupKeys hnodupIds s segs seg i hmem hseg hi]

theorem countP_declOf_postRT_zero (ctx : GenContext) (nm : String) :
    (postRT ctx).countP (isDeclOfLine nm) = 0 := by
  rw [postRT, List.countP_append, List.countP_append, List.countP_append]
  rw [countP_declOf_forceLines]
  rw [proceduresLines, List.countP_flatMap,
    sum_map_zeros _ _ (fun sp _ => countP_declOf_stageProc nm ctx.params sp.1 sp.2)]
  rw [countP_declOf_mainLines]
  rfl

theorem countP_moveOf_preRT_zero (ctx : GenContext) (t : String) (nm : String) :
    (preRT ctx t).countP (isMoveOfLine nm) = 0 := by
  rw [preRT, List.countP_append, List.countP_append]
  rw [show (headerLines ctx t).countP (isMoveOfLine nm) = 0 from rfl]
  rw [show (dataDeclLines ctx.params).countP (isMoveOfLine nm) = 0 from rfl]
  rw [countP_robtargetLines_zero _ _ rfl rfl (fun nm' pt => rfl)]

/-!
## The claims
-/

theorem joinLines_cons (l : String) (L : List String) (h : L ≠ []) :
    joinLines (l :: L) = l ++ "\n" ++ joinLines L := by
  cases L with
  | nil => exact absurd rfl h
  | cons a t => rfl

/-- The generated text before the interpolated clock reading: the module
line, a separator and the timestamp comment label. -/
def genPre (ctx : GenContext) : String :=
  ("MODULE " ++ ctx.program_name.getD "Polishing_Module") ++ "\n"
    ++ (sepLine ++ ("\n" ++ "! 生成时间: "))

/-- The generated text after the interpolated clock reading. -/
def genSuf (ctx : GenContext) : String :=
  "\n" ++ joinLines ("! 生成器: ABB Polishing Studio v2.0"
    :: ("! 机器人: " ++ ctx.params.robot_model.getD "IRB 2600")
    :: sepLine
    :: (dataDeclLines ctx.params ++ robtargetLines ctx.paths ++ forceLines ctx.params
        ++ proceduresLines ctx.paths ctx.params ++ mainLines ctx.paths ++ ["ENDMODULE"]))

/-- Claim C1: the generator is NOT a function of plan and context alone.
The generated text decomposes as a fixed prefix, the wall-clock reading
`datetime.now()` that `_add_header` interpolates, and a fixed suffix,
where prefix and suffix depend only on the context; hence two calls with
an unchanged plan and context agree exactly when the clock readings
agree, and differ byte-wise otherwise (see the counterexample). -/
theorem c1_generate_splits_on_timestamp (ctx : GenContext) (t : String) :
    generate ctx t = genPre ctx ++ (t ++ genSuf ctx) := by
  apply strExt
  show (joinLines (("MODULE " ++ ctx.program_name.getD "Polishing_Module")
    :: sepLine
    :: ("! 生成时间: " ++ t)
    :: "! 生成器: ABB Polishing Studio v2.0"
    :: ("! 机器人: " ++ ctx.params.robot_model.getD "IRB 2600")
    :: sepLine
    :: (dataDeclLines ctx.params ++ robtargetLines ctx.paths ++ forceLines ctx.params
        ++ proceduresLines ctx.paths ctx.params ++ mainLines ctx.paths
        ++ ["ENDMODULE"]))).data = _
  rw [joinLines_cons _ _ (by simp), joinLines_cons _ _ (by simp),
    joinLines_cons _ _ (by simp)]
  simp [genPre, genSuf, strData_append, List.append_assoc]

/-- Claim C1, counterexample to the frozen wording: the same plan and
context generated at two clock readings one second apart give different
text. -/
theorem c1_counterexample_distinct_timestamps :
    generate ⟨none, ⟨none, none, none, false, none, none⟩, []⟩ "2024-01-01 00:00:00"
      ≠ generate ⟨none, ⟨none, none, none, false, none, none⟩, []⟩ "2024-01-01 00:00:01" := by
  decide

/-- Claim C2: `generate` never fails and an empty plan still produces a
balanced program whose `main` calls no stage, but the frozen wording's
zero-segment clause is wrong: `_add_procedures` skips a stage only when
the stage KEY is absent from the paths dictionary (`if stage_name not in
paths: continue`), so a plan that maps `'fine'` to zero segments still
emits the (empty-bodied) `PROC Path_fine()` and `main` still calls
`Path_fine;`, rather than the stage being skipped. -/
theorem c2_empty_plan_and_empty_stage (pn : Option String) (params : GenParams) (t : String) :
    ((generateLines ⟨pn, params, []⟩ t).countP isProcLine
       = (generateLines ⟨pn, params, []⟩ t).countP isEndprocLine)
    ∧ (generateLines ⟨pn, params, []⟩ t).countP isStageCallLine = 0
    ∧ (generateLines ⟨pn, params, [("fine", [])]⟩ t).countP isProcFineLine = 1
    ∧ (generateLines ⟨pn, params, [("fine", [])]⟩ t).countP isCallFineLine = 1 := by
  obtain ⟨tl, rs, fs, fc, rm, tf⟩ := params
  cases fc <;>
    exact ⟨by rw [countP_generate_proc, countP_generate_endproc], rfl, rfl, rfl⟩

/-- Claim C2, counterexample to the zero-segment clause of the frozen
wording: a plan mapping `'fine'` to zero segments still gets a
`PROC Path_fine()` procedure and a `Path_fine;` call from `main`. -/
theorem c2_counterexample_empty_stage_emitted :
    (generateLines ⟨none, ⟨none, none, none, false, none, none⟩,
        [("fine", [])]⟩ "t").countP isProcFineLine = 1
    ∧ (generateLines ⟨none, ⟨none, none, none, false, none, none⟩,
        [("fine", [])]⟩ "t").countP isCallFineLine = 1 := ⟨rfl, rfl⟩

/-- Claim C3: `optimize_path_sequence` returns a permutation of its input
(same length, same multiset, each input position used exactly once), and
inputs of size at most 2 are returned unchanged. -/
theorem c3_sequence_is_permutation (pts : List Point3) :
    (optimize_path_sequence pts).Perm pts
    ∧ (pts.length ≤ 2 → optimize_path_sequence pts = pts) := by
  refine ⟨optimize_path_sequence_perm_aux pts, ?_⟩
  intro h
  rw [optimize_path_sequence, if_pos h]

/-- Claim C3, witness: the size-2 input is returned unchanged and is (in
particular) a permutation of itself. -/
theorem c3_sequence_is_permutation_witness :
    (optimize_path_sequence [((0, 0, 0) : Point3), (1, 0, 0)]).Perm
      [((0, 0, 0) : Point3), (1, 0, 0)]
    ∧ optimize_path_sequence [((0, 0, 0) : Point3), (1, 0, 0)]
      = [((0, 0, 0) : Point3), (1, 0, 0)] :=
  ⟨(c3_sequence_is_permutation _).1, (c3_sequence_is_permutation _).2 (by decide)⟩

/-- Claim C4 is refuted by the code: for a mesh with 2 vertices and
`k_neighbors = 10`, `cKDTree.query(point, k=11)` pads the 9 missing
neighbors with the out-of-range index 2 (the vertex count), and the fancy
indexing `vertices[indices[1:]]` raises `IndexError` — the function
neither returns a field of length 2 nor treats the vertices as having
fewer than 3 neighbors (curvature 0), contrary to the claim. -/
theorem c4_curvature_index_error :
    calculate_surface_curvature (some ⟨[((0, 0, 0) : Point3), (1, 0, 0)]⟩) 10
      = .error .indexError := rfl

theorem parallel_path_spacing_zero (v : Point3) (t : List Point3) (angle : ℚ)
    (hang : angle = 0) : _generate_parallel_path ⟨v :: t⟩ angle 0 = .error .zeroDivision := by
  subst hang
  rfl

/-- Claim C5 is wrong about the code: no `InvalidParameter` (or any
other) exception exists on this path.  A strategy outside the recognized
pair silently returns the empty path list, and a zero parallel spacing
is not rejected but propagates into `np.arange`, whose step-0
`ZeroDivisionError` escapes (negative spacing silently yields an empty
list, see the counterexample). -/
theorem c5_planner_silent_fallbacks (m : Mesh) (tr : ℚ) (kw : KWArgs) (strategy : String) :
    (strategy ≠ "adaptive" → strategy ≠ "parallel" →
      generate_paths (some m) tr strategy kw = .ok [])
    ∧ (m.vertices ≠ [] → kw.angle.getD 0 = 0 → kw.spacing = some 0 →
      generate_paths (some m) tr "parallel" kw = .error .zeroDivision) := by
  constructor
  · intro h1 h2
    show (if strategy = "adaptive" then
        _generate_adaptive_path m tr (kw.stepover.getD (mkRat 1 2))
      else if strategy = "parallel" then
        _generate_parallel_path m (kw.angle.getD 0) (kw.spacing.getD (qmul tr (mkRat 7 10)))
      else .ok []) = .ok []
    rw [if_neg h1, if_neg h2]
  · intro hv ha hs
    obtain ⟨vs⟩ := m
    cases vs with
    | nil => exact absurd rfl hv
    | cons v t =>
      show _generate_parallel_path ⟨v :: t⟩ (kw.angle.getD 0)
        (kw.spacing.getD (qmul tr (mkRat 7 10))) = .error .zeroDivision
      rw [hs]
      show _generate_parallel_path ⟨v :: t⟩ (kw.angle.getD 0) 0 = .error .zeroDivision
      exact parallel_path_spacing_zero v t _ ha

/-- Claim C5, witness: an unrecognized strategy on a nonempty mesh
silently yields the empty list, and a zero spacing raises the division
error. -/
theorem c5_planner_silent_fallbacks_witness :
    generate_paths (some ⟨[((0, 0, 0) : Point3)]⟩) 4 "spiral" ⟨none, none, none⟩ = .ok []
    ∧ generate_paths (some ⟨[((0, 0, 0) : Point3)]⟩) 4 "parallel" ⟨none, none, some 0⟩
        = .error .zeroDivision :=
  ⟨(c5_planner_silent_fallbacks ⟨[(0, 0, 0)]⟩ 4 ⟨none, none, none⟩ "spiral").1
      (by decide) (by decide),
   (c5_planner_silent_fallbacks ⟨[(0, 0, 0)]⟩ 4 ⟨none, none, some 0⟩ "x").2
      (by decide) rfl rfl⟩

/-- Claim C5, counterexample to the frozen wording: requesting the
strategy `"invalid"` returns `.ok []` (a silent default), and a negative
parallel spacing also silently returns `.ok []` — neither surfaces any
error. -/
theorem c5_counterexample_no_invalid_parameter :
    generate_paths (some ⟨[((0, 0, 0) : Point3)]⟩) 4 "invalid" ⟨none, none, none⟩ = .ok []
    ∧ generate_paths (some ⟨[((0, 0, 0) : Point3), (0, 1, 0)]⟩) 4 "parallel"
        ⟨none, none, some (-1)⟩ = .ok [] := ⟨rfl, rfl⟩

/-- Claim C6: under the data-model invariants of the paths dictionary
(keys drawn from the two stage names, keys unique, segment ids unique
within a stage — all guaranteed by the producer
`PolishingCore.generate_polishing_paths`), every generated program has
equal counts of `PROC` and `ENDPROC` lines, exactly one `MODULE` and one
`ENDMODULE` line, and every point constant name referenced by a `MoveL`
instruction is declared exactly once, in the robtargets section that
precedes every move instruction in the text. -/
theorem c6_structural_balance (ctx : GenContext) (t : String)
    (hkeys : ∀ p ∈ ctx.paths, p.1 = "rough" ∨ p.1 = "fine")
    (hnodupKeys : (ctx.paths.map Prod.fst).Nodup)
    (hnodupIds : ∀ p ∈ ctx.paths, (p.2.map Segment.id).Nodup) :
    (generateLines ctx t).countP isProcLine = (generateLines ctx t).countP isEndprocLine
    ∧ (generateLines ctx t).countP isModuleLine = 1
    ∧ (generateLines ctx t).countP isEndmoduleLine = 1
    ∧ ∀ nm ∈ moveNames ctx.paths,
        generateLines ctx t = preRT ctx t ++ postRT ctx
        ∧ (preRT ctx t).countP (isDeclOfLine nm) = 1
        ∧ (postRT ctx).countP (isDeclOfLine nm) = 0
        ∧ (preRT ctx t).countP (isMoveOfLine nm) = 0 := by
  refine ⟨by rw [countP_generate_proc, countP_generate_endproc],
    countP_generate_module ctx t, countP_generate_endmodule ctx t, ?_⟩
  intro nm hnm
  rcases moveNames_elim ctx.paths nm hnm with ⟨s, segs, seg, i, hs, hmem, hseg, hi, rfl⟩
  exact ⟨generateLines_split ctx t,
    countP_declOf_preRT_one ctx t hkeys hnodupKeys hnodupIds s segs seg i hs hmem hseg hi,
    countP_declOf_postRT_zero ctx _,
    countP_moveOf_preRT_zero ctx t _⟩

/-- A concrete one-stage, one-segment, one-point context exercising the
structural-balance theorem. -/
def ctxC6 : GenContext :=
  ⟨some "P", ⟨none, none, none, true, none, none⟩,
   [("rough", [⟨0, "rough_0", [⟨(0, 0, 0), [some 1, some 0, some 0, some 0], 300⟩]⟩])]⟩

/-- Claim C6, witness: the invariants of the concrete context hold and
the generated program has exactly one `MODULE` line. -/
theorem c6_structural_balance_witness :
    (generateLines ctxC6 "ts").countP isModuleLine = 1 :=
  (c6_structural_balance ctxC6 "ts" (by decide) (by decide) (by decide)).2.1

/-- Claim C7 is refuted by the code: `_generate_parallel_path` in
`Core/Core.py` only implements the `angle == 0` scan; at the 90° scan
direction it returns the empty path list for every nonempty mesh, never
one segment per scan line (the monolith `Autopolish1.0.py` implements the
90° branch symmetrically, which the refactored planner dropped). -/
theorem c7_parallel_90_no_segments (m : Mesh) (h : m.vertices ≠ []) (spacing : ℚ) :
    _generate_parallel_path m 90 spacing = .ok [] := by
  obtain ⟨vs⟩ := m
  cases vs with
  | nil => exact absurd rfl h
  | cons v t => rfl

/-- Claim C7, witness: a two-vertex mesh spanning the x axis produces no
segments at the 90° direction. -/
theorem c7_parallel_90_no_segments_witness :
    (⟨[((0, 0, 0) : Point3), (1, 0, 0)]⟩ : Mesh).vertices ≠ []
    ∧ _generate_parallel_path ⟨[((0, 0, 0) : Point3), (1, 0, 0)]⟩ 90 1 = .ok [] :=
  ⟨by decide, c7_parallel_90_no_segments ⟨[(0, 0, 0), (1, 0, 0)]⟩ (by decide) 1⟩

/-- The same geometry with the x and y roles swapped produces one segment
at the 0° direction, exhibiting the asymmetry that claim C7 denies. -/
theorem parallel_zero_mirror_nonempty :
    _generate_parallel_path ⟨[((0, 0, 0) : Point3), (0, 1, 0)]⟩ 0 1
      = .ok [⟨"parallel_x", none, [(0, 0, 0)]⟩] := rfl

/-- Claim C8 is wrong about the code: `calculate_tool_orientation`
contains no `raise` and NumPy division by zero only warns, so a
zero-length normal does not fail with `InvalidGeometry` (no such error
exists in the code base); `normal / np.linalg.norm(normal)` divides by
zero, the NaN propagates through every arithmetic step, and the function
returns the all-NaN quaternion.  The only fact assumed of the square-root
oracle is `sqrt 0 = 0`. -/
theorem c8_zero_normal_nan_quaternion (ops : MathOps) (h : ops.sqrt 0 = 0) :
    calculate_tool_orientation ops (0, 0, 0) = .ok [none, none, none, none] := by
  have e0 : normF ops (some 0, some 0, some 0) = some (ops.sqrt 0) := rfl
  rw [h] at e0
  simp only [calculate_tool_orientation]
  rw [e0]
  rfl

/-- Claim C8, witness: a concrete oracle with `sqrt 0 = 0` returns the
all-NaN quaternion on the zero normal. -/
theorem c8_zero_normal_nan_quaternion_witness :
    (fun q : ℚ => q) 0 = 0
    ∧ calculate_tool_orientation
        ⟨fun q => q, fun q => q, fun q => q, fun q => q⟩ (0, 0, 0)
      = .ok [none, none, none, none] :=
  ⟨rfl, c8_zero_normal_nan_quaternion ⟨fun q => q, fun q => q, fun q => q, fun q => q⟩ rfl⟩

/-- Claim C8, counterexample to the frozen wording: on the zero normal
the function returns a value (`.ok`, the all-NaN quaternion) instead of
failing. -/
theorem c8_counterexample_zero_normal_returns :
    calculate_tool_orientation ⟨fun _ => 0, fun _ => 0, fun _ => 0, fun _ => 0⟩ (0, 0, 0)
      = .ok [none, none, none, none] := rfl

/-- The curvature call inside the adaptive strategy propagates its
`IndexError` to the caller: with the defaults, a loaded 3-vertex mesh
makes `generate_polishing_paths` fail in the rough stage (the same defect
as claim C4, surfacing through `_generate_adaptive_path`). -/
theorem adaptive_small_mesh_index_error :
    generate_polishing_paths ⟨fun q => q, fun q => q, fun q => q, fun q => q⟩
      (some ⟨[(0, 0, 0), (1, 0, 0), (0, 1, 0)]⟩) ⟨none, none, none, none, none⟩
      = .error .indexError := rfl

theorem parallel_90_cases (m : Mesh) (tr sp : ℚ) :
    generate_paths (some m) tr "parallel" ⟨none, some 90, some sp⟩ = .error .emptyReduce
    ∨ generate_paths (some m) tr "parallel" ⟨none, some 90, some sp⟩ = .ok [] := by
  obtain ⟨vs⟩ := m
  cases vs with
  | nil => exact Or.inl rfl
  | cons v t => exact Or.inr rfl

/-- Claim C9: whenever `PolishingCore.generate_polishing_paths` returns a
plan at all, the plan maps the `'fine'` stage to the empty segment list,
because the fine stage always requests the parallel strategy at angle 90
and the planner's parallel generator produces no segments at that
angle. -/
theorem c9_fine_stage_empty (ops : MathOps) (mesh : Option Mesh) (cfg : CoreConfig)
    (plan : List (String × List Segment))
    (h : generate_polishing_paths ops mesh cfg = .ok plan) :
    List.lookup "fine" plan = some [] := by
  cases mesh with
  | none => exact Except.noConfusion h
  | some m =>
    simp only [generate_polishing_paths] at h
    cases hr : generate_paths (some m) (qdiv (cfg.tool_diameter.getD 8) 2)
        (cfg.path_type.getD "adaptive")
        ⟨some (cfg.stepover.getD (mkRat 1 2)), none, none⟩ with
    | error e =>
      rw [hr] at h
      exact Except.noConfusion h
    | ok rough =>
      rw [hr] at h
      rcases parallel_90_cases m (qdiv (cfg.tool_diameter.getD 8) 2)
          (qmul (cfg.tool_diameter.getD 8) (mkRat 3 10)) with hp | hp
      · rw [hp] at h
        exact Except.noConfusion h
      · rw [hp] at h
        have h2 : [("rough", _enrich_path_data ops rough "rough" cfg),
            ("fine", _enrich_path_data ops [] "fine" cfg)] = plan := Except.ok.inj h
        rw [← h2]
        rfl

/-- Claim C9, witness: a loaded flat 11-vertex mesh (enough vertices for
the curvature query of the default adaptive rough stage to succeed) with
the default configuration produces the plan whose fine stage is empty. -/
theorem c9_fine_stage_empty_witness :
    List.lookup "fine" [("rough", ([] : List Segment)), ("fine", ([] : List Segment))]
      = some [] :=
  c9_fine_stage_empty ⟨fun q => q, fun q => q, fun q => q, fun q => q⟩
    (some ⟨[(0, 0, 0), (1, 0, 0), (2, 0, 0), (3, 0, 0), (4, 0, 0), (5, 0, 0),
            (6, 0, 0), (7, 0, 0), (8, 0, 0), (9, 0, 0), (10, 0, 0)]⟩)
    ⟨none, none, none, none, none⟩
    [("rough", []), ("fine", [])] rfl

/-- The per-point enrichment `{'pos': pt, 'orient': orientation, 'speed': speed}`
performed inside the loop of `_enrich_path_data`. -/
def enrichPoint (ops : MathOps) (cfg : CoreConfig) (stage : String) (q : Point3) : PathPoint :=
  { pos := q, orient := orientationList ops (0, 0, 1), speed := cfgSpeed cfg stage }

theorem orientation_identity (ops : MathOps) (h1 : ops.sqrt 1 = 1) (h2 : ops.arccos 1 = 0)
    (h3 : ops.cos 0 = 1) (h4 : ops.sin 0 = 0) :
    orientationList ops (0, 0, 1) = [some 1, some 0, some 0, some 0] := by
  have e0 : normF ops (some 0, some 0, some 1) = some (ops.sqrt 1) := rfl
  rw [h1] at e0
  simp only [orientationList, calculate_tool_orientation]
  rw [e0]
  have e1 : arccosF ops (clipF (-1) 1 (dotF (some 0, some 0, some 1)
      (smulDivF (some 0, some 0, some 1) (some 1)))) = some (ops.arccos 1) := rfl
  rw [h2] at e1
  rw [e1]
  have e2 : cosF ops (divF (some 0) (some 2)) = some (ops.cos 0) := rfl
  rw [h3] at e2
  rw [e2]
  have e3 : sinF ops (divF (some 0) (some 2)) = some (ops.sin 0) := rfl
  rw [h4] at e3
  rw [e3]
  rfl

/-- Claim C10: every enriched point has the identity quaternion
`[1, 0, 0, 0]` as orientation, for every raw segment list, stage and
configuration, because `_enrich_path_data` always passes the fixed up
vector `[0, 0, 1]` to the pose computation.  The only facts assumed of
the math oracle are `sqrt 1 = 1`, `arccos 1 = 0`, `cos 0 = 1` and
`sin 0 = 0`, all true of the real functions. -/
theorem c10_orientation_identity (ops : MathOps) (raw : List RawSegment) (stage : String)
    (cfg : CoreConfig) (seg : Segment) (pt : PathPoint)
    (h1 : ops.sqrt 1 = 1) (h2 : ops.arccos 1 = 0) (h3 : ops.cos 0 = 1) (h4 : ops.sin 0 = 0)
    (hseg : seg ∈ _enrich_path_data ops raw stage cfg) (hpt : pt ∈ seg.points) :
    pt.orient = [some 1, some 0, some 0, some 0] := by
  rcases List.mem_filterMap.mp hseg with ⟨p, hp, heq⟩
  have heq2 : (if (p.2.points.map (enrichPoint ops cfg stage)).isEmpty then none
      else some ({ id := p.1,
                   name := stage ++ "_" ++ natStr p.1,
                   points := p.2.points.map (enrichPoint ops cfg stage) } : Segment))
      = some seg := heq
  by_cases hc : (p.2.points.map (enrichPoint ops cfg stage)).isEmpty
  · rw [if_pos hc] at heq2
    exact Option.noConfusion heq2
  · rw [if_neg hc] at heq2
    have hseg2 := Option.some.inj heq2
    rw [← hseg2] at hpt
    have hpt2 : pt ∈ p.2.points.map (enrichPoint ops cfg stage) := hpt
    rcases List.mem_map.mp hpt2 with ⟨q, _, hq⟩
    rw [← hq]
    show orientationList ops (0, 0, 1) = _
    exact orientation_identity ops h1 h2 h3 h4

/-- Claim C10, witness: the enriched point of a concrete one-point raw
segment carries the identity quaternion. -/
theorem c10_orientation_identity_witness :
    (⟨(0, 0, 0), [some 1, some 0, some 0, some 0], 200⟩ : PathPoint).orient
      = [some 1, some 0, some 0, some 0] :=
  c10_orientation_identity ⟨fun q => q, fun _ => 0, fun _ => 1, fun _ => 0⟩
    [⟨"t", none, [(0, 0, 0)]⟩] "rough" ⟨none, none, none, none, none⟩
    ⟨0, "rough_0", [⟨(0, 0, 0), [some 1, some 0, some 0, some 0], 200⟩]⟩
    ⟨(0, 0, 0), [some 1, some 0, some 0, some 0], 200⟩
    rfl rfl rfl rfl (by decide) (by decide)
